import Mathlib

/-!
Verification of the agent-supervisor core against its specification.

This file gives a shallow embedding of the core components of the
repository (plan parsing, session state, the audited tool proxy, the
orchestrator command handlers and the initial-plan handler) as
executable Lean definitions, translated function by function from the
Python sources, and proves or refutes the frozen specification claims
about them.

Modelling conventions:
* Python strings are Lean `String` or `List Char`; `str.strip()` is
  modelled over the six ASCII whitespace characters Python strips.
* `re.IGNORECASE` matching of the literal token is modelled with ASCII
  upper-casing, which agrees with Python on every ASCII input.
* Persistence (`_save_session`) performs only file I/O and never
  changes the in-memory state, so it is modelled as the identity and
  omitted from the state transformers.
* External effects (the auditor model, the stdin approval reply, the
  underlying tool run, the spill-file write, the clock, and the
  floating-point KB rendering of the spill message) are inputs to the
  embedded functions.
-/

namespace OG

set_option maxRecDepth 100000

/-- The six ASCII whitespace characters stripped by Python `str.strip()`. -/
def isPyWs (c : Char) : Bool :=
  c = ' ' || c = '\t' || c = '\n' || c = '\r' || c = Char.ofNat 11 || c = Char.ofNat 12

/-- Remove trailing whitespace: a character is kept unless it is
whitespace and everything after it is removed. -/
def rdropWs : List Char → List Char
  | [] => []
  | c :: rest =>
      let r := rdropWs rest
      if r = [] ∧ isPyWs c then [] else c :: r

/-- Python `str.strip()` on a character list: drop whitespace from both ends. -/
def pyStripL (l : List Char) : List Char :=
  rdropWs (l.dropWhile isPyWs)

/-- Python `str.strip()`. -/
def pyStrip (s : String) : String :=
  String.mk (pyStripL s.data)

/-- Python `plan_str.replace('\r\n', '\n')`: left-to-right, non-overlapping. -/
def pyNormNl : List Char → List Char
  | '\r' :: '\n' :: rest => '\n' :: pyNormNl rest
  | c :: rest => c :: pyNormNl rest
  | [] => []

/-- ASCII upper-casing, modelling `re.IGNORECASE` comparison of the token. -/
def upc (c : Char) : Char := c.toUpper

/-- The delimiter token `[STEP]` (upper-case normal form). -/
def stepTok : List Char := ['[', 'S', 'T', 'E', 'P', ']']

/-- Does a 6-character window at the head of `l` match the token
case-insensitively? -/
def tokAt6 (l : List Char) : Bool :=
  (l.take 6).map upc = stepTok

/-- Does `l` begin with the token followed by a newline (the part of the
regex alternatives `\n\[STEP\]\n` and `^\[STEP\]\n` after their anchor)?
The newline carries no case, so it is matched literally. -/
def tokNlAt (l : List Char) : Bool :=
  match l with
  | a :: b :: c :: d :: e :: f :: '\n' :: _ => [a, b, c, d, e, f].map upc = stepTok
  | _ => false

/-- Is `l` exactly the token (the regex alternative `\n\[STEP\]$`, after
its leading newline, with `$` the end of the input)? -/
def tokEndAt (l : List Char) : Bool :=
  l.map upc = stepTok

/-- Prepend a character to the first segment of a split result. -/
def consHead (c : Char) : List (List Char) → List (List Char)
  | [] => [[c]]
  | l :: ls => (c :: l) :: ls

/-- Split a character list at every newline (Python `str.split(chr(10))`:
the empty string yields one empty part, and delimiters at the edges
yield empty parts). -/
def splitOnNlL : List Char → List (List Char)
  | [] => [[]]
  | '\n' :: rest => [] :: splitOnNlL rest
  | c :: rest => consHead c (splitOnNlL rest)

/-- Python `str.split(chr(10))` on strings. -/
def pySplitNl (s : String) : List String :=
  (splitOnNlL s.data).map String.mk

/-- Python `name.replace(chr(32), chr(95))`: the pattern is a single
character, so the replacement is a character map. -/
def underscoreSpaces (s : String) : String :=
  String.mk (s.data.map (fun c => if c = ' ' then '_' else c))

/-- The scanning core of
`re.split(r'\n\[STEP\]\n|^\[STEP\]\n|\n\[STEP\]$', s, flags=re.IGNORECASE)`
for positions after the start of the string (where `^` cannot match):
leftmost non-overlapping matches, each consuming its surrounding
newlines; scanning resumes after each match.  The input of `parse_plan`
is stripped, so `$` is the end of the input. -/
def splitGo : List Char → List (List Char)
  | [] => [[]]
  | '\n' :: a :: b :: c :: d :: e :: f :: '\n' :: rest =>
      if [a, b, c, d, e, f].map upc = stepTok then
        [] :: splitGo rest
      else
        consHead '\n' (splitGo (a :: b :: c :: d :: e :: f :: '\n' :: rest))
  | '\n' :: rest =>
      if tokEndAt rest then [[], []]
      else consHead '\n' (splitGo rest)
  | ch :: rest => consHead ch (splitGo rest)

/-- The full split, including the `^\[STEP\]\n` alternative, which can only
match at position 0. -/
def splitPlanStr (l : List Char) : List (List Char) :=
  if tokNlAt l then [] :: splitGo (l.drop 7) else splitGo l

/-- A recipe step, as produced by the plan parser and stored in the session
(`description`, `expected_outcome`, `action`, `tool`). -/
structure RecipeStep where
  description : String
  expected_outcome : String
  action : String
  tool : String
deriving Repr, DecidableEq

/-- The step built by `parse_plan` for the (1-based) `n`-th surviving segment. -/
def mkBlockStep (n : Nat) (seg : String) : RecipeStep :=
  { description := "Execute command block " ++ toString n
  , expected_outcome := "Command block " ++ toString n ++ " executed successfully"
  , action := seg
  , tool := "shell_tool" }

/-- The trimmed non-empty segments produced by `parse_plan` on `s`:
normalise line endings, strip the whole input, split on the delimiter
regex, strip each raw segment and drop the empty ones. -/
def planSegments (s : String) : List (List Char) :=
  ((splitPlanStr (pyStripL (pyNormNl s.data))).map pyStripL).filter (fun l => !l.isEmpty)

/-- `parse_plan` from `src/agent/orchestrator/plan_parser.py`: the recipe
steps and the (always absent) fallback action. -/
def parse_plan (plan_str : String) : List RecipeStep × Option RecipeStep :=
  (((planSegments plan_str).enum).map (fun p => mkBlockStep (p.1 + 1) (String.mk p.2)), none)

/-- One `executed_actions` entry: `{tool, action, result, timestamp}`. -/
structure ExecutedAction where
  tool : String
  action : String
  result : String
  timestamp : String
deriving Repr, DecidableEq

/-- The in-memory session state of `AgentSession`
(`src/agent/session.py`).  Persistence rewrites this state to disk
without changing it, so it is not modelled. -/
structure SessionState where
  session_hash : String
  conversation_history : List (String × String)
  current_recipe : Option (List RecipeStep)
  fallback_action : Option RecipeStep
  executed_actions : List ExecutedAction
  original_query : Option String
  is_single_step_plan : Bool
  recipe_preapproved : Bool
  next_expected_recipe_step_idx : Nat
  next_expected_subcommand_idx : Nat
  deviation_occurred : Bool
deriving Repr, DecidableEq

/-- `AgentSession.add_to_history`. -/
def addToHistory (s : SessionState) (role content : String) : SessionState :=
  { s with conversation_history := s.conversation_history ++ [(role, content)] }

/-- `AgentSession.add_executed_action`; the timestamp string is an input
(the clock is external). -/
def addExecutedAction (s : SessionState) (tool_name action result ts : String) : SessionState :=
  { s with executed_actions :=
      s.executed_actions ++ [{ tool := tool_name, action := action, result := result, timestamp := ts }] }

/-- `AgentSession.set_plan`. -/
def setPlan (s : SessionState) (recipe_steps : List RecipeStep) (fb : Option RecipeStep) : SessionState :=
  { s with current_recipe := some recipe_steps
         , fallback_action := fb
         , is_single_step_plan := recipe_steps.length = 1 && fb.isNone
         , recipe_preapproved := false
         , next_expected_recipe_step_idx := 0
         , next_expected_subcommand_idx := 0
         , deviation_occurred := false }

/-- `AgentSession.set_original_query`. -/
def setOriginalQuery (s : SessionState) (q : String) : SessionState :=
  { s with original_query := some q }

/-- `AgentSession.set_recipe_preapproved`. -/
def setRecipePreapproved (s : SessionState) (b : Bool) : SessionState :=
  { s with recipe_preapproved := b }

/-- `AgentSession.set_single_step_plan_status`. -/
def setSingleStepPlanStatus (s : SessionState) (b : Bool) : SessionState :=
  { s with is_single_step_plan := b }

/-- `AgentSession.set_deviation_occurred`. -/
def setDeviationOccurred (s : SessionState) (b : Bool) : SessionState :=
  { s with deviation_occurred := b }

/-- `AgentSession.increment_recipe_step`: advance the step index and reset
the subcommand index. -/
def incrementRecipeStep (s : SessionState) : SessionState :=
  { s with next_expected_recipe_step_idx := s.next_expected_recipe_step_idx + 1
         , next_expected_subcommand_idx := 0 }

/-- `AgentSession.increment_subcommand_idx`. -/
def incrementSubcommandIdx (s : SessionState) : SessionState :=
  { s with next_expected_subcommand_idx := s.next_expected_subcommand_idx + 1 }

/-- `AgentSession.get_expected_recipe_step`: the step at the cursor, or
`none` when the recipe is absent, empty (falsy) or exhausted. -/
def getExpectedRecipeStep (s : SessionState) : Option RecipeStep :=
  s.current_recipe.bind (fun r => r.get? s.next_expected_recipe_step_idx)

/-- `AgentSession.get_expected_subcommand`: only `shell_tool` steps have
expected subcommands; the action is stripped before being split on
newlines, and the selected line is stripped. -/
def getExpectedSubcommand (s : SessionState) : Option String :=
  match getExpectedRecipeStep s with
  | some st =>
      if st.tool = "shell_tool" then
        let planned := pySplitNl (pyStrip st.action)
        match planned.get? s.next_expected_subcommand_idx with
        | some line => some (pyStrip line)
        | none => none
      else none
  | none => none

/-- Truncation of a result string to 200 characters in the execution
context (`result[:200] + "…"`). -/
def truncateResult (r : String) : String :=
  if r.length > 200 then String.mk (r.data.take 200) ++ "…" else r

/-- The per-action lines of the execution context. -/
def execCtxActionLines (acts : List ExecutedAction) : List String :=
  (acts.enum.map (fun p =>
    ["  " ++ toString (p.1 + 1) ++ ". " ++ p.2.tool ++ ": " ++ p.2.action]
      ++ (if p.2.result ≠ "" then ["     Result: " ++ truncateResult p.2.result] else []))).flatten

/-- The lines rendered for the 1-based `i`-th recipe step in the execution
context. -/
def execCtxStepLines (stepIdx subIdx i : Nat) (st : RecipeStep) : List String :=
  if i = stepIdx + 1 ∧ st.tool = "shell_tool" then
    let planned := pySplitNl (pyStrip st.action)
    let stepStatus :=
      if subIdx > 0 then "  " ++ toString subIdx ++ "/" ++ toString planned.length ++ " "
      else "  ▶️"
    [stepStatus ++ " " ++ toString i ++ ". " ++ st.description ++ ":"]
      ++ planned.enum.map (fun q => (if q.1 < subIdx then "    ✅" else "    ") ++ " " ++ q.2)
      ++ [" (" ++ st.tool ++ ")"]
  else
    [(if i ≤ stepIdx then "  ✅" else "  ") ++ " " ++ toString i ++ ". " ++ st.description
      ++ ": " ++ st.action ++ " (" ++ st.tool ++ ")"]

/-- `AgentSession.get_execution_context`. -/
def getExecutionContext (s : SessionState) : String :=
  let queryTruthy : Bool := match s.original_query with
    | some q => q != ""
    | none => false
  let p1 : List String := match s.original_query with
    | some q => if q ≠ "" then ["Original Request: " ++ q] else []
    | none => []
  let p2 : List String :=
    if s.executed_actions ≠ [] then
      (if queryTruthy then [""] else [])
        ++ ["Actions completed so far:"] ++ execCtxActionLines s.executed_actions
    else []
  let recipeTruthy : Bool := match s.current_recipe with
    | some r => !r.isEmpty
    | none => false
  let p3 : List String :=
    if recipeTruthy && !s.deviation_occurred then
      (match s.current_recipe with
       | some r =>
           ["\nInitial recipe/plan provided to user:"]
             ++ (r.enum.map (fun q =>
                  execCtxStepLines s.next_expected_recipe_step_idx
                    s.next_expected_subcommand_idx (q.1 + 1) q.2)).flatten
             ++ (match s.fallback_action with
                 | some fb => ["\nInitial fallback action provided to user: "
                     ++ fb.action ++ " (" ++ fb.tool ++ ")"]
                 | none => [])
       | none => [])
    else if s.deviation_occurred then
      ["\nNote: Agent deviated from the initial pre-approved recipe. All future actions require individual approval."]
    else []
  let parts := p1 ++ p2 ++ p3
  if parts ≠ [] then String.intercalate "\n" parts
  else "No prior actions or initial recipe available"

/-- An emitted NDJSON event, one constructor per `emit` call shape used by
the embedded components, carrying the payload fields the source passes. -/
inductive Event where
  | debugLog (message location : String)
  | infoLog (message location : String)
  | warnLog (message location : String)
  | errorEv (message : String) (location : Option String)
  | unsafeEv (reason explanation : String)
  | planEv (request : String) (recipe_steps : List RecipeStep) (fallback_action : Option RecipeStep)
  | requestApproval (description action tool : String)
  | resultEv (status interpret_message : String) (output : Option String)
  | finalSummary (summary nutshell status : String) (reason : Option String)
  | denyCurrentAction (message : String)
deriving Repr, DecidableEq

/-- The location string used by every `emit` in the proxy hook. -/
def hookLoc : String := "executor/create_audited_sessioned_proxy._around_hook"

/-- The verdict dictionary returned by `audit_request` (an external model
call): `safe`, with optional `reason`, `explanation` and `log_message`. -/
structure AuditRes where
  safe : Bool
  reason : Option String
  explanation : Option String
  log_message : Option String
deriving Repr, DecidableEq

/-- What reading one approval line from stdin produced: end of file, a
non-JSON line, another read failure, or a parsed `{approved: bool}`
(a missing `approved` key parses as `false`). -/
inductive ApprovalReply where
  | eof
  | badJson (line : String)
  | readFail (msg : String)
  | parsed (approved : Bool)
deriving Repr, DecidableEq

/-- The value returned by the underlying tool: a string, `None`, or some
other object together with its `str()` rendering. -/
inductive ToolRes where
  | str (s : String)
  | noneV
  | other (srepr : String)
deriving Repr, DecidableEq

/-- The outcome of invoking the underlying tool: a raised exception
(carrying the `f"{type(e).__name__}: {e}"` text) or a returned value. -/
inductive ToolOutcome where
  | raises (excRepr : String)
  | returns (v : ToolRes)
deriving Repr, DecidableEq

/-- The external effects consumed by one `_around_hook` invocation. -/
structure HookEnv where
  audit : AuditRes
  reply : ApprovalReply
  outcome : ToolOutcome
  writeOk : Bool
  writeErr : String
  kbRepr : String
  ts : String
deriving Repr, DecidableEq

/-- The arguments of one proxied call: the `command` and `path` keyword
arguments and the `str()` of the first positional argument, when present. -/
structure HookArgs where
  command : Option String
  path : Option String
  posArg : Option String
deriving Repr, DecidableEq

/-- Python `a or b` on strings: `b` when `a` is absent or empty. -/
def orFalsy (a : Option String) (b : String) : String :=
  match a with
  | some s => if s = "" then b else s
  | none => b

/-- `_get_action_string`: `command` or `path` or `str(args[0])` or the
fallback text, each skipped when falsy. -/
def getActionString (args : HookArgs) : String :=
  orFalsy args.command (orFalsy args.path (orFalsy args.posArg "an unknown action"))

/-- The approval-determination section of `_around_hook` (steps 2 of the
per-invocation algorithm): returns `should_request_approval`,
`is_current_action_expected_by_recipe`, the updated session and the
events emitted by this section. -/
def approvalGate (name action_str : String) (s : SessionState) :
    Bool × Bool × SessionState × List Event :=
  match getExpectedRecipeStep s with
  | some expected_step =>
      if name = expected_step.tool then
        let esub := getExpectedSubcommand s
        -- `expected_subcommand is not None and action_str.strip() == expected_subcommand`
        if (match esub with
            | some x => pyStrip action_str == x
            | none => false) then
          -- planned invocation; decide auto-approval
          if (s.recipe_preapproved && !s.deviation_occurred)
              || (s.is_single_step_plan
                  && s.next_expected_recipe_step_idx = 0
                  && s.next_expected_subcommand_idx = 0) then
            (false, true, s,
             [Event.infoLog ("Auto-approving expected recipe step "
                ++ toString (s.next_expected_recipe_step_idx + 1) ++ ", subcommand "
                ++ toString (s.next_expected_subcommand_idx + 1) ++ ": '" ++ action_str
                ++ "' (" ++ name ++ ")") hookLoc])
          else
            (true, true, setDeviationOccurred s true,
             [Event.warnLog ("Auto-approval condition not met for '" ++ action_str
                ++ "'. Requesting individual approval.") hookLoc])
        else
          (true, false, setDeviationOccurred s true,
           [Event.warnLog ("Deviation detected! Planned step "
              ++ toString (s.next_expected_recipe_step_idx + 1) ++ " expected '"
              ++ (match esub with | some x => x | none => "None") ++ "', got '"
              ++ action_str ++ "'. Requesting approval.") hookLoc])
      else
        (true, false, setDeviationOccurred s true,
         [Event.warnLog ("Deviation detected! Expected tool '" ++ expected_step.tool
            ++ "', got '" ++ name ++ "'. Requesting approval.") hookLoc])
  | none =>
      if s.recipe_preapproved && !s.deviation_occurred then
        (true, false, setDeviationOccurred s true,
         [Event.warnLog ("Agent attempting action '" ++ action_str ++ "' (" ++ name
            ++ ") beyond pre-approved recipe. Requesting approval.") hookLoc])
      else
        (true, false, s, [])

/-- First index at which `pat` occurs in `l` (leftmost match of a literal
pattern, as `re.search` finds it). -/
def findSub (pat : List Char) : List Char → Option Nat
  | [] => if pat = [] then some 0 else none
  | c :: rest =>
      if pat.isPrefixOf (c :: rest) then some 0
      else (findSub pat rest).map (· + 1)

/-- The earlier of two optional indices (the lazy capture stops at the
first position where either lookahead alternative matches). -/
def minOpt : Option Nat → Option Nat → Option Nat
  | some a, some b => some (min a b)
  | some a, none => some a
  | none, some b => some b
  | none, none => none

/-- The lazily captured group of `marker(.*?)(?=stop₁|stop₂|\Z)` under
`re.DOTALL`: the text from the first occurrence of `marker` up to the
first following occurrence of a stop string, or to the end. -/
def lazyCapture (marker stop1 stop2 : List Char) (l : List Char) : Option (List Char) :=
  match findSub marker l with
  | some i =>
      let tail := l.drop (i + marker.length)
      match minOpt (findSub stop1 tail) (findSub stop2 tail) with
      | some j => some (tail.take j)
      | none => some tail
  | none => none

/-- Match `--- Command exited with status: (\d+) ---` at the head of `l`:
the greedy digit run must be non-empty and be followed by ` ---`
(a shorter digit prefix cannot be, since a digit follows it). -/
def exitCodeAt (l : List Char) : Option Nat :=
  let pre := "--- Command exited with status: ".data
  if pre.isPrefixOf l then
    let t := l.drop pre.length
    let ds := t.takeWhile Char.isDigit
    if ds ≠ [] ∧ " ---".data.isPrefixOf (t.drop ds.length) then
      some (ds.foldl (fun n c => n * 10 + (c.toNat - 48)) 0)
    else none
  else none

/-- `re.search` for the exit-code pattern: the first position at which the
whole pattern matches. -/
def findExitCode : List Char → Option Nat
  | [] => none
  | c :: rest =>
      match exitCodeAt (c :: rest) with
      | some n => some n
      | none => findExitCode rest

/-- Python truthiness of `Optional[str]`. -/
def optTruthy : Option String → Bool
  | some s => s ≠ ""
  | none => false

/-- The shell-result interpretation of `_around_hook` (step 8 of the
per-invocation algorithm), producing `(interpret_message, status)` for a
string result of the shell tool. -/
def shellInterpret (name res : String) : String × String :=
  let stdout_content := (lazyCapture "--- STDOUT ---\n".data "\n--- STDERR ---".data
      "\n--- Command exited".data res.data).map (fun l => pyStrip (String.mk l))
  let stderr_content := (lazyCapture "--- STDERR ---\n".data "\n--- Command exited".data
      "\n--- Command exited".data res.data).map (fun l => pyStrip (String.mk l))
  let exit_code := (findExitCode res.data).getD 0
  let interpret0 :=
    if optTruthy stdout_content && optTruthy stderr_content then
      "Executed " ++ name ++ " with stdout and stderr"
    else if optTruthy stdout_content then "Executed " ++ name ++ " with stdout"
    else if optTruthy stderr_content then "Executed " ++ name ++ " with stderr"
    else "Executed " ++ name
  let (interpret1, status1) :=
    if exit_code ≠ 0 then (interpret0 ++ " (Exit code: " ++ toString exit_code ++ ")", "failure")
    else (interpret0, "success")
  if pyStrip res = "[Command executed with no output]" then
    (interpret1 ++ " (no output)", "success")
  else (interpret1, status1)

/-- The `str(res) if res is not None else "completed"` rendering. -/
def toolResStr : ToolRes → String
  | .str s => s
  | .noneV => "completed"
  | .other r => r

/-- The spill-file sentinel message (`result_str` after a successful write
of an over-threshold output); the `:.2f` KB figure is an input, being
floating-point formatting. -/
def spillMessage (path kb : String) : String :=
  "-- out saved to " ++ path ++ " because at " ++ kb
    ++ " KB, it is too long to include. "
    ++ "Use tools (for example perhaps `grep` or `cat " ++ path
    ++ "`) to find the details that you require --"

/-- The spill path `/tmp/og/<session_hash>/<turn+1>_<name>.txt`. -/
def spillPath (hash name : String) (turn : Nat) : String :=
  "/tmp/og/" ++ hash ++ "/" ++ toString (turn + 1) ++ "_" ++ underscoreSpaces name ++ ".txt"

/-- The execute-and-record section of `_around_hook` (steps 6 to 10 of
the per-invocation algorithm), entered once the invocation is approved:
run the tool, interpret, spill large output, record, advance the cursor
for planned invocations, emit the result. -/
def executePhase (name action_str : String) (output_threshold_bytes : Int)
    (s : SessionState) (env : HookEnv) (is_expected : Bool) :
    SessionState × List Event × Option ToolRes :=
  match env.outcome with
  | .raises excRepr =>
      let error_msg := "Tool execution failed: " ++ excRepr
      let s1 := addExecutedAction s name action_str ("ERROR: " ++ error_msg) env.ts
      let s2 := setDeviationOccurred s1 true
      (s2, [Event.errorEv error_msg (some hookLoc),
            Event.resultEv "failure" error_msg (some "")], none)
  | .returns v =>
      let (interpret_message, status) :=
        match v with
        | .str str => if name = "shell_tool" then shellInterpret name str
                      else ("Executed " ++ name, "success")
        | _ => ("Executed " ++ name, "success")
      let result_str := toolResStr v
      let (result_str, spillEvs) :=
        match v with
        | .str str =>
            if pyStrip str ≠ "" ∧ pyStrip str ≠ "[Command executed with no output]" then
              if output_threshold_bytes > 0 ∧ (str.utf8ByteSize : Int) > output_threshold_bytes then
                let path := spillPath s.session_hash name s.executed_actions.length
                if env.writeOk then
                  (spillMessage path env.kbRepr,
                   [Event.infoLog ("Tool output saved to temporary file: " ++ path) hookLoc])
                else
                  (str, [Event.errorEv ("Failed to save large tool output to " ++ path
                      ++ ": " ++ env.writeErr ++ ". Returning full output.") (some hookLoc)])
              else (result_str, [])
            else (result_str, [])
        | _ => (result_str, [])
      let s1 := addExecutedAction s name action_str result_str env.ts
      let s2 :=
        if is_expected then
          let sA := incrementSubcommandIdx s1
          match getExpectedRecipeStep sA with
          | some st =>
              let planned := pySplitNl (pyStrip st.action)
              if planned.length ≤ sA.next_expected_subcommand_idx then incrementRecipeStep sA
              else sA
          | none => sA
        else s1
      (s2, spillEvs ++ [Event.resultEv status interpret_message (some result_str)], some v)

/-- `_around_hook` from
`src/agent/agents/executor/create_audited_sessioned_proxy.py`: audit
gate, plan-match and auto-approval, user approval, execution and
recording.  Returns the updated session, the emitted events in order,
and the value returned to the executor. -/
def aroundHook (name : String) (args : HookArgs) (output_threshold_bytes : Int)
    (s : SessionState) (env : HookEnv) : SessionState × List Event × Option ToolRes :=
  let action_str := getActionString args
  let context := getExecutionContext s
  let evs0 : List Event :=
    match env.audit.log_message with
    | some m => [Event.warnLog m hookLoc]
    | none => []
  if !env.audit.safe then
    let s1 := if !s.deviation_occurred then setDeviationOccurred s true else s
    (s1, evs0 ++ [Event.unsafeEv (env.audit.reason.getD "Action deemed unsafe by auditor")
          (env.audit.explanation.getD (if context = "" then action_str else context)),
        Event.denyCurrentAction "Action was deemed unsafe by auditor."], none)
  else
    let g := approvalGate name action_str s
    let should_request_approval := g.1
    let is_expected := g.2.1
    let s2 := g.2.2.1
    let evs1 := evs0 ++ g.2.2.2
    if should_request_approval then
      let desc := name ++ " -> " ++ action_str
      let s3 := addToHistory s2 "assistant" desc
      let evs2 := evs1 ++ [Event.requestApproval desc action_str name]
      match env.reply with
      | .eof =>
          (s3, evs2 ++ [Event.errorEv ("Received EOF or empty line from stdin during approval. "
                ++ "Go client might have terminated unexpectedly.") (some hookLoc),
              Event.denyCurrentAction "Go client communication failed."], none)
      | .badJson line =>
          (s3, evs2 ++ [Event.errorEv ("Failed to parse approval response from stdin: '"
                ++ pyStrip line ++ "'") (some hookLoc),
              Event.denyCurrentAction "Invalid approval response received."], none)
      | .readFail msg =>
          (s3, evs2 ++ [Event.errorEv ("Failed to read approval response: " ++ msg) (some hookLoc),
              Event.denyCurrentAction ("Error reading approval: " ++ msg)], none)
      | .parsed approved =>
          if !approved then
            (s3, evs2 ++ [Event.resultEv "cancelled" "User denied execution" none,
                Event.denyCurrentAction "User explicitly denied the action."], none)
          else
            let e := executePhase name action_str output_threshold_bytes s3 env is_expected
            (e.1, evs2 ++ e.2.1, e.2.2)
    else
      let e := executePhase name action_str output_threshold_bytes s2 env is_expected
      (e.1, evs1 ++ e.2.1, e.2.2)

/-- The session mutations and log emission performed by
`CommandHandler._handle_execute_recipe` before the executor is invoked. -/
def handleExecuteRecipeSetup (s : SessionState) : SessionState × List Event :=
  let s1 := setSingleStepPlanStatus s false
  let s2 := setRecipePreapproved s1 true
  let s3 := incrementRecipeStep s2
  let s4 := setDeviationOccurred s3 false
  (s4, [Event.infoLog ("User approved recipe. Continuing session '" ++ s.session_hash
      ++ "' to execute pre-approved recipe steps.")
      "orchestrator/command_handler._handle_execute_recipe"])

/-- The session mutations and log emission performed by
`CommandHandler._handle_execute_single_action` before the executor is
invoked. -/
def handleExecuteSingleActionSetup (s : SessionState) : SessionState × List Event :=
  let s1 := setSingleStepPlanStatus s true
  let s2 := setRecipePreapproved s1 false
  let s3 := incrementRecipeStep s2
  let s4 := setDeviationOccurred s3 false
  (s4, [Event.infoLog ("Proceeding with single action. Session '" ++ s.session_hash
      ++ "' will request individual approval for the first action.")
      "orchestrator/command_handler._handle_execute_single_action"])

/-- The session mutations and log emission performed by
`CommandHandler._handle_execute_fallback` before the executor is invoked. -/
def handleExecuteFallbackSetup (s : SessionState) : SessionState × List Event :=
  let s1 := setSingleStepPlanStatus s false
  let s2 := setRecipePreapproved s1 false
  let s3 := incrementRecipeStep s2
  let s4 := setDeviationOccurred s3 true
  (s4, [Event.infoLog ("Continuing session '" ++ s.session_hash
      ++ "' by executing fallback.")
      "orchestrator/command_handler._handle_execute_fallback"])

/-- One session-mutating operation of a run: a proxied tool invocation
(the executor activity triggered by a command appears as the sequence of
such invocations), or one of the front-end commands dispatched by
`CommandHandler.handle_command`.  `user_approval_response` and
`deny_current_action` do not touch the session. -/
inductive SessionOp where
  | proxyCall (name : String) (args : HookArgs) (output_threshold_bytes : Int) (env : HookEnv)
  | cmdExecuteRecipe
  | cmdExecuteSingleAction
  | cmdExecuteFallback
  | cmdUserApprovalResponse
  | cmdDenyCurrentAction
deriving Repr, DecidableEq

/-- The session-state effect of one operation. -/
def applyOp (s : SessionState) : SessionOp → SessionState
  | .proxyCall name args otb env => (aroundHook name args otb s env).1
  | .cmdExecuteRecipe => (handleExecuteRecipeSetup s).1
  | .cmdExecuteSingleAction => (handleExecuteSingleActionSetup s).1
  | .cmdExecuteFallback => (handleExecuteFallbackSetup s).1
  | .cmdUserApprovalResponse => s
  | .cmdDenyCurrentAction => s

/-- A run: the session-state effect of a sequence of operations. -/
def runOps (s : SessionState) (ops : List SessionOp) : SessionState :=
  ops.foldl applyOp s

/-- Whether the orchestrator kept running or called `sys.exit`. -/
inductive RunOutcome where
  | finished
  | exited (code : Nat)
deriving Repr, DecidableEq

/-- `InitialPlanHandler._get_first_action`: the action and description of
the first recipe step, else of the fallback, else placeholders. -/
def getFirstAction (recipe_steps : List RecipeStep) (fb : Option RecipeStep) : String × String :=
  match recipe_steps with
  | first_step :: _ => (first_step.action, first_step.description)
  | [] =>
      match fb with
      | some f => (f.action, f.description)
      | none => ("", "No action available")

/-- `InitialPlanHandler._validate_plan`: an empty plan with no fallback
emits `error` and `unsafe` and exits with code 1. -/
def validatePlan (recipe_steps : List RecipeStep) (fb : Option RecipeStep) (query : String) :
    List Event × RunOutcome :=
  if recipe_steps = [] ∧ fb = none then
    ([Event.errorEv "Agent failed to generate a plan or fallback for initial audit."
        (some "orchestrator/initial_plan_handler._validate_plan"),
      Event.unsafeEv "Agent could not form a clear initial plan." query],
     .exited 1)
  else ([], .finished)

/-- `InitialPlanHandler._audit_initial_action`: submit the first action to
the auditor (an external model, an input function of the submitted action
and the execution context); an unsafe verdict emits `unsafe` with the
auditor reason and explanation and exits with code 0. -/
def auditInitialAction (recipe_steps : List RecipeStep) (fb : Option RecipeStep)
    (auditor : String → String → AuditRes) (ctx : String) : List Event × RunOutcome :=
  let p := getFirstAction recipe_steps fb
  let audit := auditor p.1 ctx
  let evs := [Event.debugLog ("Initial action to audit: '" ++ p.1 ++ "'")
      "orchestrator/initial_plan_handler._audit_initial_action"]
    ++ (match audit.log_message with
        | some m => [Event.warnLog m "orchestrator/initial_plan_handler._audit_initial_action"]
        | none => [])
  if !audit.safe then
    (evs ++ [Event.unsafeEv (audit.reason.getD "Initial plan deemed unsafe")
        (audit.explanation.getD ("Initial action proposed: '" ++ p.2 ++ "' was found unsafe."))],
     .exited 0)
  else (evs, .finished)

/-- Does the token occur (case-insensitively) anywhere in `l`? -/
def containsTok : List Char → Bool
  | [] => false
  | c :: rest => tokAt6 (c :: rest) || containsTok rest

/-- Is `l` free of the two-character sequence carriage-return newline? -/
def noCRLF : List Char → Bool
  | '\r' :: '\n' :: _ => false
  | _ :: rest => noCRLF rest
  | [] => true

/-- The join separator of the round-trip property, as characters. -/
def sepL : List Char := '\n' :: stepTok ++ ['\n']

/-- The action strings of the parsed plan. -/
def planActions (s : String) : List String :=
  (parse_plan s).1.map RecipeStep.action

/-- The first newline-separated line of a string (claim C5 wording). -/
def firstLineOf (s : String) : String :=
  (pySplitNl s).headD ""

/-- Claim C7 wording: a line is a delimiter when it carries the token
alone, up to surrounding whitespace (matched case-insensitively, as the
code matches the token). -/
def specIsDelimLine (l : List Char) : Bool :=
  (pyStripL l).map upc = stepTok

/-- The plan parser as claim C7 words it: normalise line endings, split
the input into lines, cut at every delimiter line, rejoin each group,
trim each segment and discard the empty ones. -/
def specParsePlanC7 (s : String) : List RecipeStep :=
  let lines := (pyNormNl s.data).splitOn '\n'
  let segs := ((List.splitOnP specIsDelimLine lines).map
      (fun g => pyStripL (List.intercalate ['\n'] g))).filter (fun l => !l.isEmpty)
  segs.enum.map (fun p => mkBlockStep (p.1 + 1) (String.mk p.2))

/-- Claim C6 wording of the planned-invocation test: the expected step
carries the tool of the invocation (whether `shell_tool` or
`file_content_tool`), and the trimmed action string equals the trimmed
`subcmd_idx`-th newline-separated line of the step action. -/
def claimPlannedC6 (s : SessionState) (name action_str : String) : Bool :=
  match getExpectedRecipeStep s with
  | some st =>
      name == st.tool &&
        (match (pySplitNl st.action).get? s.next_expected_subcommand_idx with
         | some line => pyStrip action_str == pyStrip line
         | none => false)
  | none => false

/-- The amended wording of the planned-invocation test: only `shell_tool`
steps ever match, and the line is taken from the whitespace-trimmed
action. -/
def amendedPlannedC6 (s : SessionState) (name action_str : String) : Bool :=
  match getExpectedRecipeStep s with
  | some st =>
      name == st.tool && st.tool == "shell_tool" &&
        (match (pySplitNl (pyStrip st.action)).get? s.next_expected_subcommand_idx with
         | some line => pyStrip action_str == pyStrip line
         | none => false)
  | none => false

/-- A blank session, used to build the concrete states of the witnesses
and counterexamples. -/
def baseSession : SessionState :=
  { session_hash := "h"
  , conversation_history := []
  , current_recipe := none
  , fallback_action := none
  , executed_actions := []
  , original_query := none
  , is_single_step_plan := false
  , recipe_preapproved := false
  , next_expected_recipe_step_idx := 0
  , next_expected_subcommand_idx := 0
  , deviation_occurred := false }

/-- A safe audit verdict with no optional fields. -/
def okAudit : AuditRes :=
  { safe := true, reason := none, explanation := none, log_message := none }

/-- An environment in which the audit is safe, the user approves, and the
tool returns a small successful shell output. -/
def approvedEnv : HookEnv :=
  { audit := okAudit
  , reply := .parsed true
  , outcome := .returns (.str "--- STDOUT ---\nok\n--- Command exited with status: 0 ---")
  , writeOk := true, writeErr := "", kbRepr := "1.00", ts := "t0" }

/-- Arguments carrying only a `command` keyword. -/
def argCmd (c : String) : HookArgs :=
  { command := some c, path := none, posArg := none }

lemma consHead_cons (c : Char) (l : List Char) (ls : List (List Char)) :
    consHead c (l :: ls) = (c :: l) :: ls := rfl

lemma splitGo_cons_ne (c : Char) (rest : List Char) (h : c ≠ '\n') :
    splitGo (c :: rest) = consHead c (splitGo rest) := by
  rw [splitGo.eq_def]
  split <;> simp_all

lemma tokEndAt_length (l : List Char) (h : tokEndAt l = true) : l.length = 6 := by
  have := congrArg List.length (by simpa [tokEndAt] using h)
  simpa [stepTok] using this

lemma tokNlAt_shape (l : List Char) (h : tokNlAt l = true) :
    ∃ a b c d e f t, l = a :: b :: c :: d :: e :: f :: '\n' :: t
      ∧ [a, b, c, d, e, f].map upc = stepTok := by
  unfold tokNlAt at h
  split at h
  · rename_i a b c d e f t
    exact ⟨a, b, c, d, e, f, t, rfl, by simpa using h⟩
  · simp at h

lemma splitGo_nl (rest : List Char) :
    splitGo ('\n' :: rest) =
      if tokNlAt rest then [] :: splitGo (rest.drop 7)
      else if tokEndAt rest then [[], []]
      else consHead '\n' (splitGo rest) := by
  rw [splitGo.eq_def]
  split
  · simp_all
  · rename_i a b c d e f rest2 heq
    injection heq with h1 h2
    subst h2
    by_cases hg : [a, b, c, d, e, f].map upc = stepTok
    · simp [hg, tokNlAt]
    · have hend : tokEndAt (a :: b :: c :: d :: e :: f :: '\n' :: rest2) = false := by
        by_contra hx
        have := tokEndAt_length _ (by simpa using hx)
        simp at this
      simp [hg, tokNlAt, hend]
  · rename_i l1 rest2 hshape heq
    injection heq with h1 h2
    subst h2
    have hnl : tokNlAt rest = false := by
      by_contra hx
      obtain ⟨a, b, c, d, e, f, t, hsh, _⟩ := tokNlAt_shape rest (by simpa using hx)
      exact hshape a b c d e f t hsh
    simp [hnl]
  · rename_i hne heq
    injection heq with h1 h2
    exact absurd h1.symm hne

lemma containsTok_cons (c : Char) (rest : List Char) :
    containsTok (c :: rest) = (tokAt6 (c :: rest) || containsTok rest) := rfl

lemma tokAt6_of_tokEndAt (l : List Char) (h : tokEndAt l = true) : tokAt6 l = true := by
  have hlen := tokEndAt_length l h
  unfold tokAt6
  rw [List.take_of_length_le (by omega)]
  simpa [tokEndAt] using h

lemma tokAt6_of_tokNlAt (l : List Char) (h : tokNlAt l = true) : tokAt6 l = true := by
  obtain ⟨a, b, c, d, e, f, t, rfl, hm⟩ := tokNlAt_shape l h
  simpa [tokAt6] using hm

lemma containsTok_of_tokAt6 (l : List Char) (hne : l ≠ []) (h : tokAt6 l = true) :
    containsTok l = true := by
  cases l with
  | nil => simp at hne
  | cons c rest => rw [containsTok_cons]; simp [h]

lemma no_tok_parts (c : Char) (rest : List Char) (h : containsTok (c :: rest) = false) :
    tokAt6 (c :: rest) = false ∧ containsTok rest = false := by
  rw [containsTok_cons] at h
  exact ⟨(Bool.or_eq_false_iff.mp h).1, (Bool.or_eq_false_iff.mp h).2⟩

lemma tokNlAt_false_of_no_tok (rest : List Char) (h : containsTok rest = false) :
    tokNlAt rest = false := by
  by_contra hx
  have hx' : tokNlAt rest = true := by simpa using hx
  have h6 := tokAt6_of_tokNlAt rest hx'
  obtain ⟨a, b, c, d, e, f, t, hsh, _⟩ := tokNlAt_shape rest hx'
  have hne : rest ≠ [] := by subst hsh; simp
  rw [containsTok_of_tokAt6 rest hne h6] at h
  simp at h

lemma tokEndAt_false_of_no_tok (rest : List Char) (h : containsTok rest = false) :
    tokEndAt rest = false := by
  by_contra hx
  have hx' : tokEndAt rest = true := by simpa using hx
  have h6 := tokAt6_of_tokEndAt rest hx'
  have hne : rest ≠ [] := by
    intro hc
    subst hc
    have := tokEndAt_length [] hx'
    simp at this
  rw [containsTok_of_tokAt6 rest hne h6] at h
  simp at h

/-- A token-free list is split into a single segment. -/
lemma splitGo_no_tok (l : List Char) (h : containsTok l = false) : splitGo l = [l] := by
  induction l with
  | nil => rfl
  | cons c rest ih =>
      obtain ⟨h1, h2⟩ := no_tok_parts c rest h
      by_cases hc : c = '\n'
      · subst hc
        rw [splitGo_nl, tokNlAt_false_of_no_tok rest h2, tokEndAt_false_of_no_tok rest h2]
        simp [ih h2, consHead]
      · rw [splitGo_cons_ne c rest hc, ih h2]
        rfl

lemma tokAt6_window_false (cs r : List Char) (h : containsTok cs = false) :
    tokAt6 (cs ++ '\n' :: r) = false := by
  by_contra hx
  have hx' : tokAt6 (cs ++ '\n' :: r) = true := by simpa using hx
  by_cases hlen : 6 ≤ cs.length
  · have hta : (cs ++ '\n' :: r).take 6 = cs.take 6 := List.take_append_of_le_length hlen
    have h6 : tokAt6 cs = true := by
      unfold tokAt6 at hx' ⊢
      rw [hta] at hx'
      exact hx'
    have hne : cs ≠ [] := by
      intro hc
      subst hc
      simp at hlen
    rw [containsTok_of_tokAt6 cs hne h6] at h
    simp at h
  · push_neg at hlen
    have hmem : '\n' ∈ (cs ++ '\n' :: r).take 6 := by
      rw [List.take_append_eq_append_take, List.take_of_length_le (le_of_lt hlen)]
      apply List.mem_append_right
      have h0 : 0 < 6 - cs.length := by omega
      cases h6 : 6 - cs.length with
      | zero => omega
      | succ k => simp
    unfold tokAt6 at hx'
    have hx2 : ((cs ++ '\n' :: r).take 6).map upc = stepTok := of_decide_eq_true hx'
    have : upc '\n' ∈ stepTok := by
      rw [← hx2]
      exact List.mem_map_of_mem upc hmem
    exact absurd this (by decide)

/-- Scanning a token-free segment followed by the separator emits the
segment and continues after the separator. -/
lemma splitGo_seg_sep (a t : List Char) (h : containsTok a = false) :
    splitGo (a ++ (sepL ++ t)) = a :: splitGo t := by
  induction a with
  | nil =>
      have he : ([] : List Char) ++ (sepL ++ t) = '\n' :: (stepTok ++ '\n' :: t) := by
        simp [sepL]
      rw [he, splitGo_nl]
      have h1 : tokNlAt (stepTok ++ '\n' :: t) = true := rfl
      rw [h1]
      simp only [if_true]
      rfl
  | cons c cs ih =>
      obtain ⟨h1, h2⟩ := no_tok_parts c cs h
      have hrw : (c :: cs) ++ (sepL ++ t) = c :: (cs ++ (sepL ++ t)) := rfl
      by_cases hc : c = '\n'
      · subst hc
        rw [hrw, splitGo_nl]
        have hsep : cs ++ (sepL ++ t) = cs ++ '\n' :: (stepTok ++ '\n' :: t) := by
          simp [sepL]
        have hnl : tokNlAt (cs ++ (sepL ++ t)) = false := by
          by_contra hx
          have h6 := tokAt6_of_tokNlAt _ (by simpa using hx)
          rw [hsep] at h6
          rw [tokAt6_window_false cs _ h2] at h6
          simp at h6
        have hend : tokEndAt (cs ++ (sepL ++ t)) = false := by
          by_contra hx
          have hx' : tokEndAt (cs ++ (sepL ++ t)) = true := by simpa using hx
          have : upc '\n' ∈ stepTok := by
            unfold tokEndAt at hx'
            rw [← (by simpa using hx' : (cs ++ (sepL ++ t)).map upc = stepTok)]
            apply List.mem_map_of_mem upc
            apply List.mem_append_right
            simp [sepL]
          exact absurd this (by decide)
        rw [hnl, hend]
        simp only [Bool.false_eq_true, if_false]
        rw [ih h2]
        rfl
      · rw [hrw, splitGo_cons_ne c _ hc, ih h2]
        rfl

lemma intercalate_cons_cons (sep a : List Char) (l : List (List Char)) (h : l ≠ []) :
    List.intercalate sep (a :: l) = a ++ (sep ++ List.intercalate sep l) := by
  cases l with
  | nil => simp at h
  | cons b l2 =>
      unfold List.intercalate
      rw [List.intersperse_cons_cons]
      simp

/-- Joining token-free segments with the separator and re-scanning
recovers exactly the segments. -/
lemma splitGo_intercalate (segs : List (List Char))
    (h : ∀ seg ∈ segs, containsTok seg = false) (hne : segs ≠ []) :
    splitGo (List.intercalate sepL segs) = segs := by
  induction segs with
  | nil => simp at hne
  | cons a l ih =>
      cases l with
      | nil =>
          have : List.intercalate sepL [a] = a := by
            unfold List.intercalate
            simp
          rw [this]
          exact splitGo_no_tok a (h a (by simp))
      | cons b l2 =>
          rw [intercalate_cons_cons sepL a (b :: l2) (by simp)]
          rw [splitGo_seg_sep a _ (h a (by simp))]
          rw [ih (fun seg hs => h seg (by simp [hs])) (by simp)]

lemma pyNormNl_cons (c : Char) (rest : List Char)
    (h : ¬(c = '\r' ∧ rest.head? = some '\n')) :
    pyNormNl (c :: rest) = c :: pyNormNl rest := by
  rw [pyNormNl.eq_def]
  split <;> simp_all

lemma noCRLF_cons_eq (c : Char) (rest : List Char)
    (h : ¬(c = '\r' ∧ rest.head? = some '\n')) :
    noCRLF (c :: rest) = noCRLF rest := by
  rw [noCRLF.eq_def]
  split <;> simp_all

lemma noCRLF_parts (c : Char) (rest : List Char) (h : noCRLF (c :: rest) = true) :
    noCRLF rest = true ∧ ¬(c = '\r' ∧ rest.head? = some '\n') := by
  by_cases hp : c = '\r' ∧ rest.head? = some '\n'
  · exfalso
    obtain ⟨hc, hh⟩ := hp
    subst hc
    cases rest with
    | nil => simp at hh
    | cons d rest2 =>
        simp at hh
        subst hh
        rw [noCRLF.eq_def] at h
        simp at h
  · rw [noCRLF_cons_eq c rest hp] at h
    exact ⟨h, hp⟩

lemma pyNormNl_eq_self (l : List Char) (h : noCRLF l = true) : pyNormNl l = l := by
  induction l with
  | nil => rfl
  | cons c rest ih =>
      obtain ⟨h1, h2⟩ := noCRLF_parts c rest h
      rw [pyNormNl_cons c rest h2, ih h1]

lemma noCRLF_append (a b : List Char) (ha : noCRLF a = true) (hb : noCRLF b = true)
    (hj : ¬(a.getLast? = some '\r' ∧ b.head? = some '\n')) : noCRLF (a ++ b) = true := by
  induction a with
  | nil => simpa using hb
  | cons c cs ih =>
      obtain ⟨h1, h2⟩ := noCRLF_parts c cs ha
      have hcons : (c :: cs) ++ b = c :: (cs ++ b) := rfl
      rw [hcons, noCRLF_cons_eq]
      · apply ih h1
        intro ⟨hx, hy⟩
        cases cs with
        | nil => simp at hx
        | cons d cs2 =>
            apply hj
            refine ⟨?_, hy⟩
            simpa [List.getLast?_cons_cons] using hx
      · intro ⟨hx, hy⟩
        rw [List.head?_append] at hy
        cases cs with
        | nil =>
            simp at hy
            exact hj ⟨by simp [hx], hy⟩
        | cons d cs2 =>
            simp at hy
            exact h2 ⟨hx, by simp [hy]⟩

lemma noCRLF_sepL : noCRLF sepL = true := by decide

lemma rdropWs_cons_eq (c : Char) (rest : List Char) :
    rdropWs (c :: rest) = if rdropWs rest = [] ∧ isPyWs c then [] else c :: rdropWs rest := rfl

lemma rdropWs_eq_self (l : List Char) (h : ∀ x ∈ l.getLast?, isPyWs x = false) :
    rdropWs l = l := by
  induction l with
  | nil => rfl
  | cons c cs ih =>
      cases cs with
      | nil =>
          have := h c (by simp)
          rw [rdropWs_cons_eq]
          simp [this, rdropWs]
      | cons d cs2 =>
          have hcs : rdropWs (d :: cs2) = d :: cs2 := by
            apply ih
            intro x hx
            apply h
            simpa [List.getLast?_cons_cons] using hx
          rw [rdropWs_cons_eq, hcs]
          simp

lemma rdropWs_getLast_not_ws (l : List Char) :
    ∀ x ∈ (rdropWs l).getLast?, isPyWs x = false := by
  induction l with
  | nil => simp [rdropWs]
  | cons c cs ih =>
      rw [rdropWs_cons_eq]
      by_cases hcond : rdropWs cs = [] ∧ isPyWs c
      · simp [hcond]
      · rw [if_neg hcond]
        cases hr : rdropWs cs with
        | nil =>
            intro x hx
            simp at hx
            rw [← hx]
            by_cases hw : isPyWs c = true
            · exact absurd ⟨hr, hw⟩ hcond
            · simpa using hw
        | cons e es =>
            intro x hx
            rw [List.getLast?_cons_cons] at hx
            apply ih
            rw [hr]
            exact hx

lemma dropWhile_head_not (p : Char → Bool) (l : List Char) :
    ∀ x ∈ (l.dropWhile p).head?, p x = false := by
  induction l with
  | nil => simp
  | cons c cs ih =>
      rw [List.dropWhile_cons]
      by_cases hp : p c
      · simpa [hp] using ih
      · intro x hx
        simp [hp] at hx ⊢
        subst hx
        simpa using hp

lemma rdropWs_head (l : List Char) : (rdropWs l).head? = l.head? ∨ rdropWs l = [] := by
  cases l with
  | nil => exact Or.inr rfl
  | cons c cs =>
      rw [rdropWs_cons_eq]
      by_cases hcond : rdropWs cs = [] ∧ isPyWs c
      · simp [hcond]
      · simp [hcond]

lemma pyStripL_head_not_ws (l : List Char) :
    ∀ x ∈ (pyStripL l).head?, isPyWs x = false := by
  unfold pyStripL
  rcases rdropWs_head (l.dropWhile isPyWs) with h | h
  · rw [h]
    exact dropWhile_head_not isPyWs l
  · rw [h]
    simp

lemma pyStripL_getLast_not_ws (l : List Char) :
    ∀ x ∈ (pyStripL l).getLast?, isPyWs x = false :=
  rdropWs_getLast_not_ws (l.dropWhile isPyWs)

lemma pyStripL_eq_self (l : List Char)
    (hh : ∀ x ∈ l.head?, isPyWs x = false)
    (hl : ∀ x ∈ l.getLast?, isPyWs x = false) : pyStripL l = l := by
  unfold pyStripL
  have hd : l.dropWhile isPyWs = l := by
    rw [List.dropWhile_eq_self_iff]
    intro hlen
    have := hh (l.get ⟨0, hlen⟩) (by cases l with
      | nil => simp at hlen
      | cons c cs => simp)
    simp only [Bool.not_eq_true]
    exact this
  rw [hd]
  exact rdropWs_eq_self l hl

lemma pyStripL_idem (l : List Char) : pyStripL (pyStripL l) = pyStripL l :=
  pyStripL_eq_self (pyStripL l) (pyStripL_head_not_ws l) (pyStripL_getLast_not_ws l)

lemma planSegments_props (s : String) :
    ∀ seg ∈ planSegments s, pyStripL seg = seg ∧ seg ≠ [] := by
  intro seg hs
  unfold planSegments at hs
  rw [List.mem_filter] at hs
  obtain ⟨hm, hne⟩ := hs
  rw [List.mem_map] at hm
  obtain ⟨raw, hraw, rfl⟩ := hm
  exact ⟨pyStripL_idem raw, by simpa using hne⟩

lemma intercalate_cons_flatten (sep x : List Char) (xs : List (List Char)) :
    List.intercalate sep (x :: xs) = x ++ (xs.map (fun z => sep ++ z)).flatten := by
  induction xs generalizing x with
  | nil => simp [List.intercalate]
  | cons y ys ih =>
      rw [intercalate_cons_cons sep x (y :: ys) (by simp), ih y]
      simp

lemma string_intercalate_go_data (as : List String) (acc s : String) :
    (String.intercalate.go acc s as).data
      = acc.data ++ (as.map (fun z => s.data ++ z.data)).flatten := by
  induction as generalizing acc with
  | nil => simp [String.intercalate.go]
  | cons a as2 ih =>
      rw [String.intercalate.go, ih]
      simp [String.data_append]

lemma string_intercalate_data (s : String) (l : List String) :
    (String.intercalate s l).data = List.intercalate s.data (l.map String.data) := by
  cases l with
  | nil => simp [String.intercalate, List.intercalate]
  | cons a as =>
      rw [String.intercalate, string_intercalate_go_data, List.map_cons,
        intercalate_cons_flatten, List.map_map]
      rfl

lemma intercalate_sep_ne_nil (segs : List (List Char)) (hne : segs ≠ [])
    (h : ∀ seg ∈ segs, seg ≠ []) : List.intercalate sepL segs ≠ [] := by
  cases segs with
  | nil => simp at hne
  | cons a l =>
      cases l with
      | nil =>
          have : List.intercalate sepL [a] = a := by
            unfold List.intercalate
            simp
          rw [this]
          exact h a (by simp)
      | cons b l2 =>
          rw [intercalate_cons_cons sepL a (b :: l2) (by simp)]
          have : a ≠ [] := h a (by simp)
          cases a with
          | nil => simp at this
          | cons c cs => simp

lemma intercalate_sep_head (a : List Char) (l : List (List Char)) (ha : a ≠ []) :
    (List.intercalate sepL (a :: l)).head? = a.head? := by
  cases l with
  | nil =>
      have : List.intercalate sepL [a] = a := by
        unfold List.intercalate
        simp
      rw [this]
  | cons b l2 =>
      rw [intercalate_cons_cons sepL a (b :: l2) (by simp), List.head?_append]
      cases a with
      | nil => simp at ha
      | cons c cs => simp

lemma intercalate_sep_getLast_not_ws (segs : List (List Char))
    (h : ∀ seg ∈ segs, ∀ x ∈ seg.getLast?, isPyWs x = false)
    (hne' : ∀ seg ∈ segs, seg ≠ []) :
    ∀ x ∈ (List.intercalate sepL segs).getLast?, isPyWs x = false := by
  induction segs with
  | nil => simp [List.intercalate]
  | cons a l ih =>
      cases l with
      | nil =>
          have he : List.intercalate sepL [a] = a := by
            unfold List.intercalate
            simp
          rw [he]
          exact h a (by simp)
      | cons b l2 =>
          rw [intercalate_cons_cons sepL a (b :: l2) (by simp)]
          intro x hx
          rw [List.getLast?_append, List.getLast?_append] at hx
          have hI : List.intercalate sepL (b :: l2) ≠ [] :=
            intercalate_sep_ne_nil (b :: l2) (by simp)
              (fun seg hs => hne' seg (by simp [hs]))
          obtain ⟨y, hy⟩ := Option.ne_none_iff_exists'.mp
            (mt List.getLast?_eq_none_iff.mp hI)
          rw [hy] at hx
          simp at hx
          subst hx
          have := ih (fun seg hs => h seg (by simp [hs]))
            (fun seg hs => hne' seg (by simp [hs]))
          exact this y hy

lemma noCRLF_intercalate (segs : List (List Char))
    (h1 : ∀ seg ∈ segs, noCRLF seg = true)
    (h2 : ∀ seg ∈ segs, ∀ x ∈ seg.getLast?, isPyWs x = false) :
    noCRLF (List.intercalate sepL segs) = true := by
  induction segs with
  | nil => simp [List.intercalate, noCRLF]
  | cons a l ih =>
      cases l with
      | nil =>
          have he : List.intercalate sepL [a] = a := by
            unfold List.intercalate
            simp
          rw [he]
          exact h1 a (by simp)
      | cons b l2 =>
          rw [intercalate_cons_cons sepL a (b :: l2) (by simp)]
          apply noCRLF_append
          · exact h1 a (by simp)
          · apply noCRLF_append sepL _ noCRLF_sepL
            · exact ih (fun seg hs => h1 seg (by simp [hs]))
                (fun seg hs => h2 seg (by simp [hs]))
            · intro ⟨hx, hy⟩
              simp [sepL, stepTok] at hx
          · intro ⟨hx, hy⟩
            have := h2 a (by simp) '\r' hx
            simp [isPyWs] at this

lemma map_pyStripL_eq_self (segs : List (List Char))
    (h : ∀ seg ∈ segs, pyStripL seg = seg) : segs.map pyStripL = segs := by
  induction segs with
  | nil => rfl
  | cons a l ih =>
      rw [List.map_cons, h a (by simp), ih (fun seg hs => h seg (by simp [hs]))]

/-- The segments of the parse of any string whose characters are
token-free stripped non-empty segments joined by the separator are
exactly those segments. -/
lemma planSegments_of_data (w : String) (segs : List (List Char))
    (hw : w.data = List.intercalate sepL segs)
    (hstrip : ∀ seg ∈ segs, pyStripL seg = seg)
    (hne : ∀ seg ∈ segs, seg ≠ [])
    (htok : ∀ seg ∈ segs, containsTok seg = false)
    (hcrlf : ∀ seg ∈ segs, noCRLF seg = true) :
    planSegments w = segs := by
  have hlast : ∀ seg ∈ segs, ∀ x ∈ seg.getLast?, isPyWs x = false := by
    intro seg hs
    rw [← hstrip seg hs]
    exact pyStripL_getLast_not_ws seg
  cases hsegs : segs with
  | nil =>
      unfold planSegments
      rw [hw, hsegs]
      simp [List.intercalate, splitPlanStr, tokNlAt, splitGo, pyNormNl, pyStripL,
        rdropWs, consHead]
  | cons a l =>
      subst hsegs
      have hnorm : pyNormNl w.data = w.data := by
        apply pyNormNl_eq_self
        rw [hw]
        exact noCRLF_intercalate _ hcrlf hlast
      have hstripw : pyStripL w.data = w.data := by
        apply pyStripL_eq_self
        · rw [hw, intercalate_sep_head a l (hne a (by simp))]
          intro x hx
          have := pyStripL_head_not_ws a
          rw [hstrip a (by simp)] at this
          exact this x hx
        · rw [hw]
          exact intercalate_sep_getLast_not_ws _ hlast hne
      have htokAt : tokAt6 w.data = false := by
        rw [hw]
        cases l with
        | nil =>
            have he : List.intercalate sepL [a] = a := by
              unfold List.intercalate
              simp
            rw [he]
            by_contra hx
            have := containsTok_of_tokAt6 a (hne a (by simp)) (by simpa using hx)
            rw [htok a (by simp)] at this
            simp at this
        | cons b l2 =>
            rw [intercalate_cons_cons sepL a (b :: l2) (by simp)]
            have : sepL ++ List.intercalate sepL (b :: l2)
                = '\n' :: (stepTok ++ ['\n'] ++ List.intercalate sepL (b :: l2)) := by
              simp [sepL]
            rw [this]
            exact tokAt6_window_false a _ (htok a (by simp))
      have hnl : tokNlAt w.data = false := by
        by_contra hx
        have := tokAt6_of_tokNlAt _ (by simpa using hx)
        rw [htokAt] at this
        simp at this
      unfold planSegments
      rw [hnorm, hstripw]
      unfold splitPlanStr
      rw [hnl]
      simp only [Bool.false_eq_true, if_false]
      rw [hw, splitGo_intercalate _ htok (by simp), map_pyStripL_eq_self _ hstrip]
      rw [List.filter_eq_self.mpr]
      intro seg hs
      have := hne seg hs
      simpa using this

/-- The action strings of the parsed steps are the segments. -/
lemma planActions_eq (s : String) :
    planActions s = (planSegments s).map String.mk := by
  unfold planActions parse_plan
  rw [List.map_map]
  have : (RecipeStep.action ∘ fun p : Nat × List Char => mkBlockStep (p.1 + 1) (String.mk p.2))
      = (fun p : Nat × List Char => String.mk p.2) := by
    funext p
    rfl
  rw [this]
  have : (fun p : Nat × List Char => String.mk p.2)
      = (String.mk ∘ Prod.snd) := rfl
  rw [this, ← List.map_map, List.enum_map_snd]

/-- Claim C7, counterexample: the parser does not implement the claimed
line-based split.  The input `[STEP]`, which consists of one delimiter
line, parses to one step whose action is `[STEP]` rather than to an
empty recipe (contradicting the claim and the code comment), and a
delimiter line carrying leading whitespace is not split on. -/
theorem c7_counterexample :
    (parse_plan "[STEP]").1 ≠ specParsePlanC7 "[STEP]"
    ∧ (parse_plan "a\n [STEP]\nb").1 ≠ specParsePlanC7 "a\n [STEP]\nb"
    ∧ (parse_plan "[STEP]").1 ≠ [] := by
  refine ⟨by decide, by decide, by decide⟩

/-- Claim C7, amended: the parser normalises line endings and trims the
whole input; it splits only at exact delimiter occurrences (newline,
the token, newline — with no other whitespace on the delimiter line —
or the token at the very start or end of the trimmed input); each
segment is trimmed, empty segments are discarded, and every surviving
segment becomes one numbered `shell_tool` step; a whitespace-only input
yields an empty plan, and the fallback is always absent.  An input
consisting only of delimiter lines can yield a non-empty plan
(see the counterexample). -/
theorem c7_amended :
    (∀ s : String, pyStripL (pyNormNl s.data) = [] → parse_plan s = ([], none))
    ∧ (∀ s : String, ∀ st ∈ (parse_plan s).1,
        st.tool = "shell_tool" ∧ st.action ≠ "" ∧ pyStrip st.action = st.action)
    ∧ (∀ s : String, (parse_plan s).2 = none)
    ∧ (∀ a b : String,
        pyStripL a.data = a.data → a.data ≠ [] →
        containsTok a.data = false → noCRLF a.data = true →
        pyStripL b.data = b.data → b.data ≠ [] →
        containsTok b.data = false → noCRLF b.data = true →
        (parse_plan (a ++ "\n[STEP]\n" ++ b)).1 = [mkBlockStep 1 a, mkBlockStep 2 b]) := by
  refine ⟨?_, ?_, ?_, ?_⟩
  · intro s h
    unfold parse_plan planSegments
    rw [h]
    rfl
  · intro s st hst
    unfold parse_plan at hst
    simp only at hst
    rw [List.mem_map] at hst
    obtain ⟨⟨i, seg⟩, hmem, rfl⟩ := hst
    have hseg : seg ∈ planSegments s := by
      have := List.mem_map_of_mem Prod.snd hmem
      rwa [List.enum_map_snd] at this
    obtain ⟨hstrip, hne⟩ := planSegments_props s seg hseg
    refine ⟨rfl, ?_, ?_⟩
    · show String.mk seg ≠ ""
      intro hc
      apply hne
      have : (String.mk seg).data = ("" : String).data := by rw [hc]
      simpa using this
    · show pyStrip (String.mk seg) = String.mk seg
      unfold pyStrip
      rw [show (String.mk seg).data = seg from rfl, hstrip]
  · intro s
    rfl
  · intro a b ha1 ha2 ha3 ha4 hb1 hb2 hb3 hb4
    have hdata : (a ++ "\n[STEP]\n" ++ b).data
        = List.intercalate sepL [a.data, b.data] := by
      rw [intercalate_cons_cons sepL a.data [b.data] (by simp)]
      have : List.intercalate sepL [b.data] = b.data := by
        unfold List.intercalate
        simp
      rw [this]
      rw [String.data_append, String.data_append]
      have hsep : "\n[STEP]\n".data = sepL := rfl
      rw [hsep, List.append_assoc]
    have hsegs : planSegments (a ++ "\n[STEP]\n" ++ b) = [a.data, b.data] := by
      apply planSegments_of_data _ _ hdata
      · intro seg hs
        simp only [List.mem_cons, List.not_mem_nil, or_false] at hs
        rcases hs with rfl | rfl
        · exact ha1
        · exact hb1
      · intro seg hs
        simp only [List.mem_cons, List.not_mem_nil, or_false] at hs
        rcases hs with rfl | rfl
        · exact ha2
        · exact hb2
      · intro seg hs
        simp only [List.mem_cons, List.not_mem_nil, or_false] at hs
        rcases hs with rfl | rfl
        · exact ha3
        · exact hb3
      · intro seg hs
        simp only [List.mem_cons, List.not_mem_nil, or_false] at hs
        rcases hs with rfl | rfl
        · exact ha4
        · exact hb4
    unfold parse_plan
    rw [hsegs]
    have hma : String.mk a.data = a := rfl
    have hmb : String.mk b.data = b := rfl
    simp [List.enum, hma, hmb]

/-- Claim C7, witness: the amended theorem applied to a whitespace-only
input and to two clean segments around one delimiter. -/
theorem c7_amended_witness :
    parse_plan " \n " = ([], none)
    ∧ (parse_plan ("ls" ++ "\n[STEP]\n" ++ "pwd")).1
        = [mkBlockStep 1 "ls", mkBlockStep 2 "pwd"] := by
  constructor
  · exact c7_amended.1 " \n " (by decide)
  · exact c7_amended.2.2.2 "ls" "pwd" (by decide) (by decide) (by decide) (by decide)
      (by decide) (by decide) (by decide) (by decide)

/-- Claim C8, counterexample: the round-trip property fails when a parsed
segment itself carries the delimiter token.  The input shown parses to
the segments `[STEP]` and `b`; joining them with the separator and
re-parsing yields the single segment `[STEP]` newline `b`. -/
theorem c8_counterexample :
    planActions (String.intercalate "\n[STEP]\n" (planActions "[STEP]\n[STEP]\n[STEP]\nb"))
      ≠ planActions "[STEP]\n[STEP]\n[STEP]\nb" := by
  decide

/-- Claim C8, amended: joining the parsed segments with the separator and
re-parsing yields the same segment sequence, provided no parsed segment
contains the token (case-insensitively) and no parsed segment contains a
carriage-return-newline pair. -/
theorem c8_roundtrip_amended (s : String)
    (h : ∀ seg ∈ planSegments s, containsTok seg = false ∧ noCRLF seg = true) :
    planActions (String.intercalate "\n[STEP]\n" (planActions s)) = planActions s := by
  rw [planActions_eq s]
  have hdata : (String.intercalate "\n[STEP]\n" ((planSegments s).map String.mk)).data
      = List.intercalate sepL (planSegments s) := by
    rw [string_intercalate_data, List.map_map]
    have h1 : "\n[STEP]\n".data = sepL := rfl
    have h2 : (String.data ∘ String.mk) = (id : List Char → List Char) := rfl
    rw [h1, h2, List.map_id]
  rw [planActions_eq]
  rw [planSegments_of_data _ (planSegments s) hdata
      (fun seg hs => (planSegments_props s seg hs).1)
      (fun seg hs => (planSegments_props s seg hs).2)
      (fun seg hs => (h seg hs).1)
      (fun seg hs => (h seg hs).2)]

/-- Claim C8, witness: the amended round trip at a two-step plan with a
multi-line first step. -/
theorem c8_roundtrip_amended_witness :
    planActions (String.intercalate "\n[STEP]\n" (planActions "cd /tmp\nls\n[STEP]\npwd"))
      = planActions "cd /tmp\nls\n[STEP]\npwd" :=
  c8_roundtrip_amended "cd /tmp\nls\n[STEP]\npwd" (by decide)

lemma approvalGate_state (name a : String) (s : SessionState) :
    (approvalGate name a s).2.2.1 = s
      ∨ (approvalGate name a s).2.2.1 = setDeviationOccurred s true := by
  unfold approvalGate
  rcases hE : getExpectedRecipeStep s with _ | st
  · simp only [hE]
    split_ifs <;> simp
  · simp only [hE]
    split_ifs <;> simp

lemma approvalGate_events_logs_only (name a : String) (s : SessionState) :
    ∀ ev ∈ (approvalGate name a s).2.2.2,
      (∃ m l, ev = Event.infoLog m l) ∨ (∃ m l, ev = Event.warnLog m l) := by
  unfold approvalGate
  rcases hE : getExpectedRecipeStep s with _ | st
  · simp only [hE]
    split_ifs <;> simp
  · simp only [hE]
    split_ifs <;> simp

lemma approvalGate_no_deny (name a : String) (s : SessionState) :
    ∀ m, Event.denyCurrentAction m ∉ (approvalGate name a s).2.2.2 := by
  intro m hm
  rcases approvalGate_events_logs_only name a s _ hm with ⟨m2, l2, h⟩ | ⟨m2, l2, h⟩ <;>
    simp at h

lemma approvalGate_frame (name a : String) (s : SessionState) :
    (approvalGate name a s).2.2.1.session_hash = s.session_hash
    ∧ (approvalGate name a s).2.2.1.conversation_history = s.conversation_history
    ∧ (approvalGate name a s).2.2.1.current_recipe = s.current_recipe
    ∧ (approvalGate name a s).2.2.1.fallback_action = s.fallback_action
    ∧ (approvalGate name a s).2.2.1.executed_actions = s.executed_actions
    ∧ (approvalGate name a s).2.2.1.original_query = s.original_query
    ∧ (approvalGate name a s).2.2.1.is_single_step_plan = s.is_single_step_plan
    ∧ (approvalGate name a s).2.2.1.recipe_preapproved = s.recipe_preapproved
    ∧ (approvalGate name a s).2.2.1.next_expected_recipe_step_idx
        = s.next_expected_recipe_step_idx
    ∧ (approvalGate name a s).2.2.1.next_expected_subcommand_idx
        = s.next_expected_subcommand_idx := by
  rcases approvalGate_state name a s with h | h <;> rw [h] <;>
    simp [setDeviationOccurred]

lemma approvalGate_dev_mono (name a : String) (s : SessionState)
    (h : s.deviation_occurred = true) :
    (approvalGate name a s).2.2.1.deviation_occurred = true := by
  rcases approvalGate_state name a s with h1 | h1 <;> rw [h1] <;>
    simp [setDeviationOccurred, h]

lemma executePhase_dev_mono (name a : String) (otb : Int) (s : SessionState)
    (env : HookEnv) (exp : Bool) (h : s.deviation_occurred = true) :
    (executePhase name a otb s env exp).1.deviation_occurred = true := by
  unfold executePhase
  rcases ho : env.outcome with r | v
  · simp [setDeviationOccurred, addExecutedAction]
  · cases hexp : exp <;> subst hexp <;>
      cases v <;>
      simp only [Bool.false_eq_true, if_false, if_true] <;>
      (try split_ifs) <;>
      (try split) <;>
      (try split_ifs) <;>
      simp [addExecutedAction, incrementSubcommandIdx, incrementRecipeStep, h]

lemma executePhase_cursor_cases (name a : String) (otb : Int) (s : SessionState)
    (env : HookEnv) (exp : Bool) :
    ((executePhase name a otb s env exp).1.next_expected_recipe_step_idx
        = s.next_expected_recipe_step_idx
      ∧ (executePhase name a otb s env exp).1.next_expected_subcommand_idx
        = s.next_expected_subcommand_idx)
    ∨ (exp = true ∧ (∃ v, env.outcome = ToolOutcome.returns v)
        ∧ (((executePhase name a otb s env exp).1.next_expected_recipe_step_idx
              = s.next_expected_recipe_step_idx
            ∧ (executePhase name a otb s env exp).1.next_expected_subcommand_idx
              = s.next_expected_subcommand_idx + 1)
          ∨ ((executePhase name a otb s env exp).1.next_expected_recipe_step_idx
              = s.next_expected_recipe_step_idx + 1
            ∧ (executePhase name a otb s env exp).1.next_expected_subcommand_idx = 0))) := by
  unfold executePhase
  rcases ho : env.outcome with r | v
  · left
    simp [setDeviationOccurred, addExecutedAction]
  · cases hexp : exp
    · left
      subst hexp
      cases v <;>
        simp only [Bool.false_eq_true, if_false] <;>
        (try split_ifs) <;>
        simp [addExecutedAction]
    · right
      subst hexp
      refine ⟨rfl, ⟨v, rfl⟩, ?_⟩
      cases v <;>
        simp only [if_true] <;>
        (try split_ifs) <;>
        (try split) <;>
        (try split_ifs) <;>
        simp [addExecutedAction, incrementSubcommandIdx, incrementRecipeStep]

lemma executePhase_no_deny (name a : String) (otb : Int) (s : SessionState)
    (env : HookEnv) (exp : Bool) :
    ∀ m, Event.denyCurrentAction m ∉ (executePhase name a otb s env exp).2.1 := by
  intro m
  unfold executePhase
  rcases ho : env.outcome with r | v
  · simp
  · cases hexp : exp <;> subst hexp <;>
      cases v <;>
      simp only [Bool.false_eq_true, if_false, if_true] <;>
      (try split_ifs) <;>
      simp

/-- Claim C9: a tool exception makes the proxy emit an `error` event and a
`failure` result, record an `ERROR:`-prefixed entry, set the deviation
flag, and return null, without emitting any `deny_current_action`. -/
theorem c9_tool_exception (name : String) (args : HookArgs) (otb : Int)
    (s : SessionState) (env : HookEnv) (r : String)
    (hsafe : env.audit.safe = true)
    (hexec : (approvalGate name (getActionString args) s).1 = false
      ∨ env.reply = ApprovalReply.parsed true)
    (hraise : env.outcome = ToolOutcome.raises r) :
    (aroundHook name args otb s env).2.2 = none
    ∧ (aroundHook name args otb s env).1.deviation_occurred = true
    ∧ (aroundHook name args otb s env).1.executed_actions
        = s.executed_actions
            ++ [{ tool := name
                  , action := getActionString args
                  , result := "ERROR: " ++ ("Tool execution failed: " ++ r)
                  , timestamp := env.ts }]
    ∧ Event.errorEv ("Tool execution failed: " ++ r) (some hookLoc)
        ∈ (aroundHook name args otb s env).2.1
    ∧ Event.resultEv "failure" ("Tool execution failed: " ++ r) (some "")
        ∈ (aroundHook name args otb s env).2.1
    ∧ ∀ m, Event.denyCurrentAction m ∉ (aroundHook name args otb s env).2.1 := by
  have hexecuted := (approvalGate_frame name (getActionString args) s).2.2.2.2.1
  have hdeny := approvalGate_no_deny name (getActionString args) s
  have hevents : ∃ pre, (aroundHook name args otb s env).2.1
      = pre ++ [Event.errorEv ("Tool execution failed: " ++ r) (some hookLoc),
          Event.resultEv "failure" ("Tool execution failed: " ++ r) (some "")]
      ∧ ∀ m, Event.denyCurrentAction m ∉ pre := by
    unfold aroundHook
    simp only [hsafe, Bool.not_true, Bool.false_eq_true, if_false]
    by_cases hg : (approvalGate name (getActionString args) s).1 = true
    · rcases hexec with hex | hex
      · rw [hex] at hg
        simp at hg
      · simp only [hg, if_true, hex]
        unfold executePhase
        simp only [hraise]
        refine ⟨_, rfl, ?_⟩
        intro m hm
        rcases hl : env.audit.log_message with _ | lm <;> rw [hl] at hm <;> simp at hm <;>
          exact hdeny m hm
    · simp only [Bool.not_eq_true] at hg
      simp only [hg, Bool.false_eq_true, if_false]
      unfold executePhase
      simp only [hraise]
      refine ⟨_, rfl, ?_⟩
      intro m hm
      rcases hl : env.audit.log_message with _ | lm <;> rw [hl] at hm <;> simp at hm <;>
        exact hdeny m hm
  obtain ⟨pre, hpre, hnd⟩ := hevents
  have hstate : (aroundHook name args otb s env).2.2 = none
      ∧ (aroundHook name args otb s env).1.deviation_occurred = true
      ∧ (aroundHook name args otb s env).1.executed_actions
        = s.executed_actions
            ++ [{ tool := name
                  , action := getActionString args
                  , result := "ERROR: " ++ ("Tool execution failed: " ++ r)
                  , timestamp := env.ts }] := by
    unfold aroundHook
    simp only [hsafe, Bool.not_true, Bool.false_eq_true, if_false]
    by_cases hg : (approvalGate name (getActionString args) s).1 = true
    · rcases hexec with hex | hex
      · rw [hex] at hg
        simp at hg
      · simp only [hg, if_true, hex]
        unfold executePhase
        simp only [hraise]
        refine ⟨?_, ?_, ?_⟩
        · trivial
        · simp [setDeviationOccurred]
        · simp [setDeviationOccurred, addExecutedAction, addToHistory, hexecuted]
    · simp only [Bool.not_eq_true] at hg
      simp only [hg, Bool.false_eq_true, if_false]
      unfold executePhase
      simp only [hraise]
      refine ⟨?_, ?_, ?_⟩
      · trivial
      · simp [setDeviationOccurred]
      · simp [setDeviationOccurred, addExecutedAction, hexecuted]
  refine ⟨hstate.1, hstate.2.1, hstate.2.2, ?_, ?_, ?_⟩
  · rw [hpre]
    simp
  · rw [hpre]
    simp
  · intro m
    rw [hpre]
    simp only [List.mem_append]
    rintro (hm | hm)
    · exact hnd m hm
    · simp at hm

/-- Claim C10: an invocation stopped at a gate (unsafe verdict, or an
approval request answered by EOF, malformed input, a read failure, or a
denial) returns null, never invokes the underlying tool (the result does
not depend on the tool outcome, the spill-write outcome, or the clock),
appends nothing to `executed_actions`, leaves the cursor and every other
persisted field unchanged except that `deviation_occurred` may be set
and `conversation_history` may gain the approval-request description. -/
theorem c10_gate_abort (name : String) (args : HookArgs) (otb : Int)
    (s : SessionState) (env : HookEnv)
    (habort : env.audit.safe = false
      ∨ ((approvalGate name (getActionString args) s).1 = true
          ∧ env.reply ≠ ApprovalReply.parsed true)) :
    (aroundHook name args otb s env).2.2 = none
    ∧ (aroundHook name args otb s env).1.executed_actions = s.executed_actions
    ∧ (aroundHook name args otb s env).1.next_expected_recipe_step_idx
        = s.next_expected_recipe_step_idx
    ∧ (aroundHook name args otb s env).1.next_expected_subcommand_idx
        = s.next_expected_subcommand_idx
    ∧ (aroundHook name args otb s env).1.current_recipe = s.current_recipe
    ∧ (aroundHook name args otb s env).1.fallback_action = s.fallback_action
    ∧ (aroundHook name args otb s env).1.original_query = s.original_query
    ∧ (aroundHook name args otb s env).1.is_single_step_plan = s.is_single_step_plan
    ∧ (aroundHook name args otb s env).1.recipe_preapproved = s.recipe_preapproved
    ∧ (aroundHook name args otb s env).1.session_hash = s.session_hash
    ∧ ((aroundHook name args otb s env).1.conversation_history = s.conversation_history
        ∨ (aroundHook name args otb s env).1.conversation_history
            = s.conversation_history
                ++ [("assistant", name ++ " -> " ++ getActionString args)])
    ∧ ∀ env2 : HookEnv, env2.audit = env.audit → env2.reply = env.reply →
        aroundHook name args otb s env2 = aroundHook name args otb s env := by
  have hframe := approvalGate_frame name (getActionString args) s
  have hind : ∀ env2 : HookEnv, env2.audit = env.audit → env2.reply = env.reply →
      aroundHook name args otb s env2 = aroundHook name args otb s env := by
    intro env2 hA hR
    by_cases hsafe : env.audit.safe = true
    · have hcase : (approvalGate name (getActionString args) s).1 = true
          ∧ env.reply ≠ ApprovalReply.parsed true := by
        rcases habort with h | h
        · rw [hsafe] at h
          simp at h
        · exact h
      unfold aroundHook
      rw [hA, hR]
      simp only [hsafe, Bool.not_true, Bool.false_eq_true, if_false, hcase.1, if_true]
      rcases hrepl : env.reply with _ | line | msg | b
      · trivial
      · trivial
      · trivial
      · cases b
        · trivial
        · exact absurd hrepl hcase.2
    · have hF : env.audit.safe = false := by simpa using hsafe
      unfold aroundHook
      rw [hA]
      simp only [hF, Bool.not_false, if_true]
  by_cases hsafe : env.audit.safe = true
  · have hcase : (approvalGate name (getActionString args) s).1 = true
        ∧ env.reply ≠ ApprovalReply.parsed true := by
      rcases habort with h | h
      · rw [hsafe] at h
        simp at h
      · exact h
    have hmain : (aroundHook name args otb s env).1
        = addToHistory (approvalGate name (getActionString args) s).2.2.1 "assistant"
            (name ++ " -> " ++ getActionString args)
        ∧ (aroundHook name args otb s env).2.2 = none := by
      unfold aroundHook
      simp only [hsafe, Bool.not_true, Bool.false_eq_true, if_false, hcase.1, if_true]
      rcases hrepl : env.reply with _ | line | msg | b
      · exact ⟨by trivial, by trivial⟩
      · exact ⟨by trivial, by trivial⟩
      · exact ⟨by trivial, by trivial⟩
      · cases b
        · exact ⟨by trivial, by trivial⟩
        · exact absurd hrepl hcase.2
    refine ⟨hmain.2, ?_, ?_, ?_, ?_, ?_, ?_, ?_, ?_, ?_, ?_, hind⟩
    · rw [hmain.1]
      simpa [addToHistory] using hframe.2.2.2.2.1
    · rw [hmain.1]
      simpa [addToHistory] using hframe.2.2.2.2.2.2.2.2.1
    · rw [hmain.1]
      simpa [addToHistory] using hframe.2.2.2.2.2.2.2.2.2
    · rw [hmain.1]
      simpa [addToHistory] using hframe.2.2.1
    · rw [hmain.1]
      simpa [addToHistory] using hframe.2.2.2.1
    · rw [hmain.1]
      simpa [addToHistory] using hframe.2.2.2.2.2.1
    · rw [hmain.1]
      simpa [addToHistory] using hframe.2.2.2.2.2.2.1
    · rw [hmain.1]
      simpa [addToHistory] using hframe.2.2.2.2.2.2.2.1
    · rw [hmain.1]
      simpa [addToHistory] using hframe.1
    · right
      rw [hmain.1]
      simp [addToHistory, hframe.2.1]
  · have hF : env.audit.safe = false := by simpa using hsafe
    have hmain : (aroundHook name args otb s env).1
        = (if !s.deviation_occurred then setDeviationOccurred s true else s)
        ∧ (aroundHook name args otb s env).2.2 = none := by
      unfold aroundHook
      simp only [hF, Bool.not_false, if_true]
      exact ⟨by trivial, by trivial⟩
    refine ⟨hmain.2, ?_, ?_, ?_, ?_, ?_, ?_, ?_, ?_, ?_, ?_, hind⟩
    · rw [hmain.1]
      split_ifs <;> simp [setDeviationOccurred]
    · rw [hmain.1]
      split_ifs <;> simp [setDeviationOccurred]
    · rw [hmain.1]
      split_ifs <;> simp [setDeviationOccurred]
    · rw [hmain.1]
      split_ifs <;> simp [setDeviationOccurred]
    · rw [hmain.1]
      split_ifs <;> simp [setDeviationOccurred]
    · rw [hmain.1]
      split_ifs <;> simp [setDeviationOccurred]
    · rw [hmain.1]
      split_ifs <;> simp [setDeviationOccurred]
    · rw [hmain.1]
      split_ifs <;> simp [setDeviationOccurred]
    · rw [hmain.1]
      split_ifs <;> simp [setDeviationOccurred]
    · left
      rw [hmain.1]
      split_ifs <;> simp [setDeviationOccurred]

/-- Claim C10, witness: an invocation denied by the user. -/
theorem c10_gate_abort_witness :
    (aroundHook "shell_tool" (argCmd "rm -rf /") 16768 baseSession
        { approvedEnv with reply := ApprovalReply.parsed false }).2.2 = none
    ∧ (aroundHook "shell_tool" (argCmd "rm -rf /") 16768 baseSession
        { approvedEnv with reply := ApprovalReply.parsed false }).1.executed_actions
      = baseSession.executed_actions := by
  have h := c10_gate_abort "shell_tool" (argCmd "rm -rf /") 16768 baseSession
    { approvedEnv with reply := ApprovalReply.parsed false }
    (Or.inr ⟨by decide, by decide⟩)
  exact ⟨h.1, h.2.1⟩

lemma aroundHook_dev_mono (name : String) (args : HookArgs) (otb : Int)
    (s : SessionState) (env : HookEnv) (h : s.deviation_occurred = true) :
    (aroundHook name args otb s env).1.deviation_occurred = true := by
  have hgd := approvalGate_dev_mono name (getActionString args) s h
  unfold aroundHook
  by_cases hsafe : env.audit.safe = true
  · simp only [hsafe, Bool.not_true, Bool.false_eq_true, if_false]
    by_cases hg : (approvalGate name (getActionString args) s).1 = true
    · simp only [hg, if_true]
      rcases hrepl : env.reply with _ | line | msg | b
      · simpa [addToHistory] using hgd
      · simpa [addToHistory] using hgd
      · simpa [addToHistory] using hgd
      · cases b
        · simpa [addToHistory] using hgd
        · exact executePhase_dev_mono _ _ _ _ _ _ (by simpa [addToHistory] using hgd)
    · simp only [Bool.not_eq_true] at hg
      simp only [hg, Bool.false_eq_true, if_false]
      exact executePhase_dev_mono _ _ _ _ _ _ hgd
  · have hF : env.audit.safe = false := by simpa using hsafe
    simp only [hF, Bool.not_false, if_true, h]
    simp [setDeviationOccurred, h]

lemma applyOp_dev_mono (s : SessionState) (op : SessionOp)
    (h1 : op ≠ SessionOp.cmdExecuteRecipe) (h2 : op ≠ SessionOp.cmdExecuteSingleAction)
    (h : s.deviation_occurred = true) : (applyOp s op).deviation_occurred = true := by
  cases op with
  | proxyCall name args otb env => exact aroundHook_dev_mono name args otb s env h
  | cmdExecuteRecipe => exact absurd rfl h1
  | cmdExecuteSingleAction => exact absurd rfl h2
  | cmdExecuteFallback =>
      simp [applyOp, handleExecuteFallbackSetup, setSingleStepPlanStatus,
        setRecipePreapproved, incrementRecipeStep, setDeviationOccurred]
  | cmdUserApprovalResponse => exact h
  | cmdDenyCurrentAction => exact h

/-- Claim C1, counterexample: the `execute_recipe` command handler resets
`deviation_occurred` to false even when it was true, so the flag is not
absorbing across front-end commands. -/
theorem c1_counterexample :
    ({ baseSession with deviation_occurred := true } : SessionState).deviation_occurred = true
    ∧ (applyOp { baseSession with deviation_occurred := true }
        SessionOp.cmdExecuteRecipe).deviation_occurred = false
    ∧ (applyOp { baseSession with deviation_occurred := true }
        SessionOp.cmdExecuteSingleAction).deviation_occurred = false := by
  refine ⟨rfl, by decide, by decide⟩

/-- Claim C1, amended: once `deviation_occurred` is true it stays true
across every proxy invocation and across the front-end commands other
than `execute_recipe` and `execute_single_action`; those two handlers
unconditionally reset it to false. -/
theorem c1_deviation_absorbing (s : SessionState) (ops : List SessionOp)
    (hops : ∀ op ∈ ops, op ≠ SessionOp.cmdExecuteRecipe
      ∧ op ≠ SessionOp.cmdExecuteSingleAction)
    (h : s.deviation_occurred = true) :
    (runOps s ops).deviation_occurred = true := by
  induction ops generalizing s with
  | nil => exact h
  | cons op ops2 ih =>
      have hstep : (applyOp s op).deviation_occurred = true :=
        applyOp_dev_mono s op (hops op (by simp)).1 (hops op (by simp)).2 h
      exact ih (applyOp s op) (fun o ho => hops o (by simp [ho])) hstep

/-- Claim C1, witness: deviation survives a fallback command, a denied
proxy invocation and a pass-through command. -/
theorem c1_deviation_absorbing_witness :
    (runOps { baseSession with deviation_occurred := true }
      [SessionOp.cmdExecuteFallback,
       SessionOp.proxyCall "shell_tool" (argCmd "ls") 16768
         { approvedEnv with reply := ApprovalReply.parsed false },
       SessionOp.cmdUserApprovalResponse]).deviation_occurred = true :=
  c1_deviation_absorbing _ _ (by decide) (by decide)

lemma aroundHook_cursor_cases (name : String) (args : HookArgs) (otb : Int)
    (s : SessionState) (env : HookEnv) :
    ((aroundHook name args otb s env).1.next_expected_recipe_step_idx
        = s.next_expected_recipe_step_idx
      ∧ (aroundHook name args otb s env).1.next_expected_subcommand_idx
        = s.next_expected_subcommand_idx)
    ∨ (env.audit.safe = true
        ∧ (approvalGate name (getActionString args) s).2.1 = true
        ∧ (∃ v, env.outcome = ToolOutcome.returns v)
        ∧ (((aroundHook name args otb s env).1.next_expected_recipe_step_idx
              = s.next_expected_recipe_step_idx
            ∧ (aroundHook name args otb s env).1.next_expected_subcommand_idx
              = s.next_expected_subcommand_idx + 1)
          ∨ ((aroundHook name args otb s env).1.next_expected_recipe_step_idx
              = s.next_expected_recipe_step_idx + 1
            ∧ (aroundHook name args otb s env).1.next_expected_subcommand_idx = 0))) := by
  have hframe := approvalGate_frame name (getActionString args) s
  have hstep0 := hframe.2.2.2.2.2.2.2.2.1
  have hsub0 := hframe.2.2.2.2.2.2.2.2.2
  unfold aroundHook
  by_cases hsafe : env.audit.safe = true
  · simp only [hsafe, Bool.not_true, Bool.false_eq_true, if_false]
    by_cases hg : (approvalGate name (getActionString args) s).1 = true
    · simp only [hg, if_true]
      rcases hrepl : env.reply with _ | line | msg | b
      · left
        simp [addToHistory, hstep0, hsub0]
      · left
        simp [addToHistory, hstep0, hsub0]
      · left
        simp [addToHistory, hstep0, hsub0]
      · cases b
        · left
          simp [addToHistory, hstep0, hsub0]
        · have hc := executePhase_cursor_cases name (getActionString args) otb
            (addToHistory (approvalGate name (getActionString args) s).2.2.1 "assistant"
              (name ++ " -> " ++ getActionString args)) env
            (approvalGate name (getActionString args) s).2.1
          rcases hc with ⟨h1, h2⟩ | ⟨hexp, hv, hcur⟩
          · left
            constructor
            · rw [show (addToHistory (approvalGate name (getActionString args) s).2.2.1
                  "assistant" (name ++ " -> " ++ getActionString args)).next_expected_recipe_step_idx
                  = s.next_expected_recipe_step_idx from by simp [addToHistory, hstep0]] at h1
              simpa using h1
            · rw [show (addToHistory (approvalGate name (getActionString args) s).2.2.1
                  "assistant" (name ++ " -> " ++ getActionString args)).next_expected_subcommand_idx
                  = s.next_expected_subcommand_idx from by simp [addToHistory, hsub0]] at h2
              simpa using h2
          · right
            refine ⟨by trivial, hexp, hv, ?_⟩
            rcases hcur with ⟨h1, h2⟩ | ⟨h1, h2⟩
            · left
              constructor
              · rw [show (addToHistory (approvalGate name (getActionString args) s).2.2.1
                    "assistant" (name ++ " -> " ++ getActionString args)).next_expected_recipe_step_idx
                    = s.next_expected_recipe_step_idx from by simp [addToHistory, hstep0]] at h1
                simpa using h1
              · rw [show (addToHistory (approvalGate name (getActionString args) s).2.2.1
                    "assistant" (name ++ " -> " ++ getActionString args)).next_expected_subcommand_idx
                    = s.next_expected_subcommand_idx from by simp [addToHistory, hsub0]] at h2
                simpa using h2
            · right
              constructor
              · rw [show (addToHistory (approvalGate name (getActionString args) s).2.2.1
                    "assistant" (name ++ " -> " ++ getActionString args)).next_expected_recipe_step_idx
                    = s.next_expected_recipe_step_idx from by simp [addToHistory, hstep0]] at h1
                simpa using h1
              · simpa using h2
    · simp only [Bool.not_eq_true] at hg
      simp only [hg, Bool.false_eq_true, if_false]
      have hc := executePhase_cursor_cases name (getActionString args) otb
        (approvalGate name (getActionString args) s).2.2.1 env
        (approvalGate name (getActionString args) s).2.1
      rcases hc with ⟨h1, h2⟩ | ⟨hexp, hv, hcur⟩
      · left
        rw [hstep0] at h1
        rw [hsub0] at h2
        exact ⟨by simpa using h1, by simpa using h2⟩
      · right
        refine ⟨by trivial, hexp, hv, ?_⟩
        rcases hcur with ⟨h1, h2⟩ | ⟨h1, h2⟩
        · left
          rw [hstep0] at h1
          rw [hsub0] at h2
          exact ⟨by simpa using h1, by simpa using h2⟩
        · right
          rw [hstep0] at h1
          exact ⟨by simpa using h1, by simpa using h2⟩
  · have hF : env.audit.safe = false := by simpa using hsafe
    simp only [hF, Bool.not_false, if_true]
    left
    split_ifs <;> simp [setDeviationOccurred]

lemma applyOp_step_mono (s : SessionState) (op : SessionOp) :
    s.next_expected_recipe_step_idx ≤ (applyOp s op).next_expected_recipe_step_idx := by
  cases op with
  | proxyCall name args otb env =>
      rcases aroundHook_cursor_cases name args otb s env with ⟨h1, _⟩ | ⟨_, _, _, hc⟩
      · exact le_of_eq h1.symm
      · rcases hc with ⟨h1, _⟩ | ⟨h1, _⟩
        · exact le_of_eq h1.symm
        · rw [show (applyOp s (SessionOp.proxyCall name args otb env)) =
            (aroundHook name args otb s env).1 from rfl, h1]
          omega
  | cmdExecuteRecipe =>
      simp [applyOp, handleExecuteRecipeSetup, setSingleStepPlanStatus,
        setRecipePreapproved, incrementRecipeStep, setDeviationOccurred]
  | cmdExecuteSingleAction =>
      simp [applyOp, handleExecuteSingleActionSetup, setSingleStepPlanStatus,
        setRecipePreapproved, incrementRecipeStep, setDeviationOccurred]
  | cmdExecuteFallback =>
      simp [applyOp, handleExecuteFallbackSetup, setSingleStepPlanStatus,
        setRecipePreapproved, incrementRecipeStep, setDeviationOccurred]
  | cmdUserApprovalResponse => exact le_refl _
  | cmdDenyCurrentAction => exact le_refl _

/-- Claim C2, counterexample: the progress cursor is not mutated only
after successful planned tool invocations.  The `execute_recipe` handler
advances `step_idx` with no tool invocation at all, and a planned
invocation whose shell command exits with a non-zero status (a `failure`
result) still advances the cursor. -/
theorem c2_counterexample :
    (applyOp (setPlan baseSession [mkBlockStep 1 "cd /tmp\nls", mkBlockStep 2 "pwd"] none)
        SessionOp.cmdExecuteRecipe).next_expected_recipe_step_idx
      ≠ (setPlan baseSession [mkBlockStep 1 "cd /tmp\nls", mkBlockStep 2 "pwd"]
          none).next_expected_recipe_step_idx
    ∧ (aroundHook "shell_tool" (argCmd "cd /tmp") 16768
        { (setPlan baseSession [mkBlockStep 1 "cd /tmp\nls", mkBlockStep 2 "pwd"] none)
          with recipe_preapproved := true }
        { approvedEnv with outcome := ToolOutcome.returns (ToolRes.str
            "--- STDERR ---\nboom\n--- Command exited with status: 1 ---") }).1.next_expected_subcommand_idx
      = 1
    ∧ Event.resultEv "failure" "Executed shell_tool with stderr (Exit code: 1)"
        (some "--- STDERR ---\nboom\n--- Command exited with status: 1 ---")
      ∈ (aroundHook "shell_tool" (argCmd "cd /tmp") 16768
        { (setPlan baseSession [mkBlockStep 1 "cd /tmp\nls", mkBlockStep 2 "pwd"] none)
          with recipe_preapproved := true }
        { approvedEnv with outcome := ToolOutcome.returns (ToolRes.str
            "--- STDERR ---\nboom\n--- Command exited with status: 1 ---") }).2.1 := by
  refine ⟨by decide, by decide, by decide⟩

/-- Claim C2, amended: within a proxy invocation the cursor changes only
when the audit is safe, the invocation is classed as planned, and the
underlying tool returns without raising (even if the shell result is a
failure); each of the three execute commands advances `step_idx` by one
and zeroes `subcmd_idx`; across any run `step_idx` is non-decreasing;
and in every single operation `subcmd_idx` is reset to 0 whenever
`step_idx` changes, and otherwise changes only by an increment. -/
theorem c2_cursor_amended :
    (∀ (name : String) (args : HookArgs) (otb : Int) (s : SessionState) (env : HookEnv),
      ((aroundHook name args otb s env).1.next_expected_recipe_step_idx
          ≠ s.next_expected_recipe_step_idx
        ∨ (aroundHook name args otb s env).1.next_expected_subcommand_idx
          ≠ s.next_expected_subcommand_idx)
      → env.audit.safe = true
        ∧ (approvalGate name (getActionString args) s).2.1 = true
        ∧ ∃ v, env.outcome = ToolOutcome.returns v)
    ∧ (∀ s : SessionState, ∀ op ∈ [SessionOp.cmdExecuteRecipe,
          SessionOp.cmdExecuteSingleAction, SessionOp.cmdExecuteFallback],
        (applyOp s op).next_expected_recipe_step_idx
          = s.next_expected_recipe_step_idx + 1
        ∧ (applyOp s op).next_expected_subcommand_idx = 0)
    ∧ (∀ (s : SessionState) (ops : List SessionOp),
        s.next_expected_recipe_step_idx
          ≤ (runOps s ops).next_expected_recipe_step_idx)
    ∧ (∀ (s : SessionState) (op : SessionOp),
        ((applyOp s op).next_expected_recipe_step_idx ≠ s.next_expected_recipe_step_idx
          → (applyOp s op).next_expected_subcommand_idx = 0)
        ∧ ((applyOp s op).next_expected_recipe_step_idx = s.next_expected_recipe_step_idx
          → (applyOp s op).next_expected_subcommand_idx = s.next_expected_subcommand_idx
            ∨ (applyOp s op).next_expected_subcommand_idx
              = s.next_expected_subcommand_idx + 1)) := by
  refine ⟨?_, ?_, ?_, ?_⟩
  · intro name args otb s env hch
    rcases aroundHook_cursor_cases name args otb s env with ⟨h1, h2⟩ | ⟨hs, he, hv, _⟩
    · rcases hch with hch | hch
      · exact absurd h1 hch
      · exact absurd h2 hch
    · exact ⟨hs, he, hv⟩
  · intro s op hop
    simp only [List.mem_cons, List.not_mem_nil, or_false] at hop
    rcases hop with rfl | rfl | rfl
    · constructor <;>
        simp [applyOp, handleExecuteRecipeSetup, setSingleStepPlanStatus,
          setRecipePreapproved, incrementRecipeStep, setDeviationOccurred]
    · constructor <;>
        simp [applyOp, handleExecuteSingleActionSetup, setSingleStepPlanStatus,
          setRecipePreapproved, incrementRecipeStep, setDeviationOccurred]
    · constructor <;>
        simp [applyOp, handleExecuteFallbackSetup, setSingleStepPlanStatus,
          setRecipePreapproved, incrementRecipeStep, setDeviationOccurred]
  · intro s ops
    induction ops generalizing s with
    | nil => exact le_refl _
    | cons op ops2 ih =>
        exact le_trans (applyOp_step_mono s op) (ih (applyOp s op))
  · intro s op
    cases op with
    | proxyCall name args otb env =>
        rcases aroundHook_cursor_cases name args otb s env with ⟨h1, h2⟩ | ⟨_, _, _, hc⟩
        · exact ⟨fun hch => absurd h1 hch, fun _ => Or.inl h2⟩
        · rcases hc with ⟨h1, h2⟩ | ⟨h1, h2⟩
          · exact ⟨fun hch => absurd h1 hch, fun _ => Or.inr h2⟩
          · refine ⟨fun _ => h2, fun hch => ?_⟩
            rw [show (applyOp s (SessionOp.proxyCall name args otb env))
              = (aroundHook name args otb s env).1 from rfl, h1] at hch
            omega
    | cmdExecuteRecipe =>
        constructor <;>
          simp [applyOp, handleExecuteRecipeSetup, setSingleStepPlanStatus,
            setRecipePreapproved, incrementRecipeStep, setDeviationOccurred]
    | cmdExecuteSingleAction =>
        constructor <;>
          simp [applyOp, handleExecuteSingleActionSetup, setSingleStepPlanStatus,
            setRecipePreapproved, incrementRecipeStep, setDeviationOccurred]
    | cmdExecuteFallback =>
        constructor <;>
          simp [applyOp, handleExecuteFallbackSetup, setSingleStepPlanStatus,
            setRecipePreapproved, incrementRecipeStep, setDeviationOccurred]
    | cmdUserApprovalResponse => exact ⟨fun hch => absurd rfl hch, fun _ => Or.inl rfl⟩
    | cmdDenyCurrentAction => exact ⟨fun hch => absurd rfl hch, fun _ => Or.inl rfl⟩

/-- Claim C2, witness: a planned approved invocation that advances the
cursor satisfies the amended conditions, and a short run is monotone. -/
theorem c2_cursor_amended_witness :
    ({ approvedEnv with audit := okAudit }.audit.safe = true
      ∧ (approvalGate "shell_tool" (getActionString (argCmd "cd /tmp"))
          { (setPlan baseSession [mkBlockStep 1 "cd /tmp\nls", mkBlockStep 2 "pwd"] none)
            with recipe_preapproved := true }).2.1 = true
      ∧ ∃ v, ({ approvedEnv with audit := okAudit } : HookEnv).outcome
          = ToolOutcome.returns v)
    ∧ (setPlan baseSession [mkBlockStep 1 "ls"] none).next_expected_recipe_step_idx
        ≤ (runOps (setPlan baseSession [mkBlockStep 1 "ls"] none)
            [SessionOp.cmdExecuteRecipe,
              SessionOp.cmdExecuteFallback]).next_expected_recipe_step_idx := by
  constructor
  · exact c2_cursor_amended.1 "shell_tool" (argCmd "cd /tmp") 16768
      { (setPlan baseSession [mkBlockStep 1 "cd /tmp\nls", mkBlockStep 2 "pwd"] none)
        with recipe_preapproved := true }
      { approvedEnv with audit := okAudit }
      (Or.inr (by decide))
  · exact c2_cursor_amended.2.2.1 (setPlan baseSession [mkBlockStep 1 "ls"] none)
      [SessionOp.cmdExecuteRecipe, SessionOp.cmdExecuteFallback]

/-- Claim C3, behaviour at the failing input: handling `execute_recipe`
on a freshly planned session sets the flags as the claim says, but its
`increment_recipe_step()` call leaves the progress cursor at (1, 0)
rather than (0, 0), so the first recipe step is already marked past. -/
theorem c3_execute_recipe_behavior :
    ((handleExecuteRecipeSetup (setPlan baseSession
        [mkBlockStep 1 "cd /tmp\nls", mkBlockStep 2 "pwd"] none)).1.recipe_preapproved = true)
    ∧ ((handleExecuteRecipeSetup (setPlan baseSession
        [mkBlockStep 1 "cd /tmp\nls", mkBlockStep 2 "pwd"] none)).1.is_single_step_plan = false)
    ∧ ((handleExecuteRecipeSetup (setPlan baseSession
        [mkBlockStep 1 "cd /tmp\nls", mkBlockStep 2 "pwd"] none)).1.deviation_occurred = false)
    ∧ ((handleExecuteRecipeSetup (setPlan baseSession
        [mkBlockStep 1 "cd /tmp\nls", mkBlockStep 2 "pwd"]
          none)).1.next_expected_recipe_step_idx = 1)
    ∧ ((handleExecuteRecipeSetup (setPlan baseSession
        [mkBlockStep 1 "cd /tmp\nls", mkBlockStep 2 "pwd"]
          none)).1.next_expected_subcommand_idx = 0) := by
  refine ⟨by decide, by decide, by decide, by decide, by decide⟩

/-- Claim C4, behaviour at the failing input: after `execute_single_action`
on a fresh single-step plan the cursor stands at (1, 0), so the very
first proposed subcommand finds no expected step and the proxy emits
`request_approval` instead of auto-approving it (the auto-approval
branch requires the cursor to be at (0, 0)). -/
theorem c4_single_action_behavior :
    (aroundHook "shell_tool" (argCmd "ls") 16768
        (handleExecuteSingleActionSetup (setOriginalQuery
          (setPlan baseSession [mkBlockStep 1 "ls"] none) "count files")).1
        approvedEnv).2.1
      = [Event.requestApproval "shell_tool -> ls" "ls" "shell_tool",
         Event.resultEv "success" "Executed shell_tool with stdout"
           (some "--- STDOUT ---\nok\n--- Command exited with status: 0 ---")]
    ∧ (handleExecuteSingleActionSetup (setOriginalQuery
        (setPlan baseSession [mkBlockStep 1 "ls"] none)
          "count files")).1.next_expected_recipe_step_idx = 1 := by
  refine ⟨by decide, by decide⟩

/-- Claim C5, counterexample: the string submitted to the pre-plan audit
is the whole multi-line action of the first step, not only its first
newline-separated line. -/
theorem c5_counterexample :
    (getFirstAction [mkBlockStep 1 "cd /tmp\nls"] none).1
      ≠ firstLineOf (mkBlockStep 1 "cd /tmp\nls").action := by
  decide

/-- Claim C5, amended: the string submitted to the auditor on the
initial-plan path is the entire action of the first recipe step (or of
the fallback when there are no steps), and an unsafe verdict emits
`unsafe` with the auditor reason and explanation and exits with
code 0. -/
theorem c5_first_action_amended :
    (∀ (steps : List RecipeStep) (fb : Option RecipeStep) (st : RecipeStep),
        steps.head? = some st → (getFirstAction steps fb).1 = st.action)
    ∧ (∀ fb : RecipeStep, (getFirstAction [] (some fb)).1 = fb.action)
    ∧ (∀ (steps : List RecipeStep) (fb : Option RecipeStep)
          (auditor : String → String → AuditRes) (ctx : String),
        (auditor (getFirstAction steps fb).1 ctx).safe = false →
        (auditInitialAction steps fb auditor ctx).2 = RunOutcome.exited 0
        ∧ Event.unsafeEv
            ((auditor (getFirstAction steps fb).1 ctx).reason.getD
              "Initial plan deemed unsafe")
            ((auditor (getFirstAction steps fb).1 ctx).explanation.getD
              ("Initial action proposed: '" ++ (getFirstAction steps fb).2
                ++ "' was found unsafe."))
          ∈ (auditInitialAction steps fb auditor ctx).1) := by
  refine ⟨?_, ?_, ?_⟩
  · intro steps fb st h
    cases steps with
    | nil => simp at h
    | cons a l =>
        simp at h
        subst h
        rfl
  · intro fb
    rfl
  · intro steps fb auditor ctx h
    unfold auditInitialAction
    simp only [h, Bool.not_false, if_true]
    exact ⟨by trivial, by simp⟩

/-- Claim C5, witness: a two-line first step is audited whole, and an
unsafe verdict exits with code 0. -/
theorem c5_first_action_amended_witness :
    (getFirstAction [mkBlockStep 1 "cd /tmp\nls"] none).1
        = (mkBlockStep 1 "cd /tmp\nls").action
    ∧ (auditInitialAction [mkBlockStep 1 "cd /tmp\nls"] none
        (fun _ _ => (⟨false, some "r", some "e", none⟩ : AuditRes)) "ctx").2
      = RunOutcome.exited 0 := by
  constructor
  · exact c5_first_action_amended.1 [mkBlockStep 1 "cd /tmp\nls"] none _ rfl
  · exact (c5_first_action_amended.2.2 [mkBlockStep 1 "cd /tmp\nls"] none
      (fun _ _ => (⟨false, some "r", some "e", none⟩ : AuditRes)) "ctx" rfl).1

/-- Claim C6, counterexample: a `file_content_tool` step whose action
matches the proposed path exactly is still classed as a deviation (the
equality test only ever applies to `shell_tool` steps), and an
invocation past the end of the recipe without a pre-approved recipe
leaves the deviation flag unset although the claim says it is set. -/
theorem c6_counterexample :
    (claimPlannedC6 (setPlan baseSession [(⟨"d", "o", "x", "file_content_tool"⟩ : RecipeStep)] none)
        "file_content_tool" "x" = true
      ∧ (approvalGate "file_content_tool" "x"
          (setPlan baseSession [(⟨"d", "o", "x", "file_content_tool"⟩ : RecipeStep)] none)).2.1
        = false
      ∧ (approvalGate "file_content_tool" "x"
          (setPlan baseSession [(⟨"d", "o", "x", "file_content_tool"⟩ : RecipeStep)] none)).1
        = true)
    ∧ (approvalGate "shell_tool" "ls"
        (incrementRecipeStep (setPlan baseSession [mkBlockStep 1 "pwd"] none))).2.2.1.deviation_occurred
      = false := by
  refine ⟨⟨by decide, by decide, by decide⟩, by decide⟩

/-- Claim C6, amended: an invocation is classed as planned exactly when
the expected step exists, carries the invoked tool name, that tool is
`shell_tool`, and the trimmed action string equals the trimmed
`subcmd_idx`-th newline-separated line of the trimmed step action; past
the end of the recipe approval is required and the deviation flag
becomes `dev or recipe_preapproved`; any non-planned invocation with an
expected step requires approval and sets the flag. -/
theorem c6_gate_amended :
    (∀ (s : SessionState) (name a : String),
        (approvalGate name a s).2.1 = amendedPlannedC6 s name a)
    ∧ (∀ (s : SessionState) (name a : String), getExpectedRecipeStep s = none →
        (approvalGate name a s).1 = true
        ∧ (approvalGate name a s).2.2.1.deviation_occurred
            = (s.deviation_occurred || s.recipe_preapproved))
    ∧ (∀ (s : SessionState) (name a : String), getExpectedRecipeStep s ≠ none →
        (approvalGate name a s).2.1 = false →
        (approvalGate name a s).1 = true
        ∧ (approvalGate name a s).2.2.1.deviation_occurred = true) := by
  refine ⟨?_, ?_, ?_⟩
  · intro s name a
    unfold approvalGate amendedPlannedC6 getExpectedSubcommand
    rcases hE : getExpectedRecipeStep s with _ | st
    · simp only [hE]
      split_ifs <;> simp
    · simp only [hE]
      by_cases hT : name = st.tool
      · by_cases hS : st.tool = "shell_tool"
        · rcases hL : (pySplitNl (pyStrip st.action)).get?
              s.next_expected_subcommand_idx with _ | line
          · simp [hT, hS, hL]
          · by_cases hEq : pyStrip a = pyStrip line
            · simp only [hT, hS, hL, if_true, hEq]
              split_ifs <;> simp_all
            · simp [hT, hS, hL, hEq]
        · simp [hT, hS]
      · have hb : (name == st.tool) = false := by simpa using hT
        simp [hT, hb]
  · intro s name a hE
    unfold approvalGate
    simp only [hE]
    by_cases hp : s.recipe_preapproved
    · by_cases hd : s.deviation_occurred
      · simp [hp, hd, setDeviationOccurred]
      · simp [hp, hd, setDeviationOccurred]
    · by_cases hd : s.deviation_occurred
      · simp [hp, hd, setDeviationOccurred]
      · simp [hp, hd, setDeviationOccurred]
  · intro s name a hE hnotexp
    unfold approvalGate at hnotexp ⊢
    rcases hEs : getExpectedRecipeStep s with _ | st
    · exact absurd hEs hE
    · simp only [hEs] at hnotexp ⊢
      split_ifs at hnotexp ⊢ <;>
        simp_all [setDeviationOccurred]

/-- Claim C6, witness: the amended characterisation applied past the end
of a recipe and at a tool mismatch. -/
theorem c6_gate_amended_witness :
    ((approvalGate "shell_tool" "ls"
        (setRecipePreapproved (incrementRecipeStep
          (setPlan baseSession [mkBlockStep 1 "pwd"] none)) true)).1 = true
      ∧ (approvalGate "shell_tool" "ls"
          (setRecipePreapproved (incrementRecipeStep
            (setPlan baseSession [mkBlockStep 1 "pwd"] none)) true)).2.2.1.deviation_occurred
        = ((setRecipePreapproved (incrementRecipeStep
            (setPlan baseSession [mkBlockStep 1 "pwd"] none)) true).deviation_occurred
          || (setRecipePreapproved (incrementRecipeStep
            (setPlan baseSession [mkBlockStep 1 "pwd"] none)) true).recipe_preapproved))
    ∧ ((approvalGate "file_content_tool" "x"
        (setPlan baseSession [(⟨"d", "o", "x", "file_content_tool"⟩ : RecipeStep)] none)).1 = true
      ∧ (approvalGate "file_content_tool" "x"
          (setPlan baseSession
            [(⟨"d", "o", "x", "file_content_tool"⟩ : RecipeStep)] none)).2.2.1.deviation_occurred
        = true) := by
  constructor
  · exact c6_gate_amended.2.1
      (setRecipePreapproved (incrementRecipeStep
        (setPlan baseSession [mkBlockStep 1 "pwd"] none)) true)
      "shell_tool" "ls" (by decide)
  · exact c6_gate_amended.2.2
      (setPlan baseSession [(⟨"d", "o", "x", "file_content_tool"⟩ : RecipeStep)] none)
      "file_content_tool" "x" (by decide) (by decide)

/-- Claim C9, witness: a raised tool exception on an approved invocation. -/
theorem c9_tool_exception_witness :
    (aroundHook "shell_tool" (argCmd "ls") 16768
        (setPlan baseSession [mkBlockStep 1 "ls"] none)
        { approvedEnv with outcome := ToolOutcome.raises "RuntimeError: boom" }).2.2 = none
    ∧ (aroundHook "shell_tool" (argCmd "ls") 16768
        (setPlan baseSession [mkBlockStep 1 "ls"] none)
        { approvedEnv with outcome := ToolOutcome.raises "RuntimeError: boom" }).1.deviation_occurred
        = true := by
  have h := c9_tool_exception "shell_tool" (argCmd "ls") 16768
    (setPlan baseSession [mkBlockStep 1 "ls"] none)
    { approvedEnv with outcome := ToolOutcome.raises "RuntimeError: boom" }
    "RuntimeError: boom" rfl (Or.inr rfl) rfl
  exact ⟨h.1, h.2.1⟩

end OG
